import Mathlib

/-!
Shallow embedding of `OpenSMOG/OpenSMOG.py` (class `SBM`) and proofs about it.

Python exceptions are modelled by `PyError`; fallible code returns
`Except PyError` or a `state × Option PyError` pair when attribute mutations
performed before a raise must survive the raise.  Python `float` values that
flow through numpy arrays are modelled by `FVal` (a rational or NaN), with the
IEEE rule that `NaN == x` is false for every `x`.  Conversions `int(...)` and
`float(...)` are modelled for plain decimal literals, which is all the claims
exercise.  External OpenMM objects (forces, system, simulation) are modelled
by explicit records holding exactly the data the Python code reads or writes.
-/

namespace OpenSMOG

/-- Python exceptions distinguished by the code paths of `OpenSMOG.py`. -/
inductive PyError where
  | valueError (msg : String)
  | keyError (key : String)
  | attributeError (msg : String)
  | indexError (msg : String)
deriving Repr, DecidableEq

abbrev Exc := Except PyError

instance excDecEq [DecidableEq α] : DecidableEq (Exc α)
  | .error e, .error f =>
      if h : e = f then isTrue (by rw [h]) else isFalse (by simp [h])
  | .error _, .ok _ => isFalse (by simp)
  | .ok _, .error _ => isFalse (by simp)
  | .ok a, .ok b =>
      if h : a = b then isTrue (by rw [h]) else isFalse (by simp [h])

/-- A Python float as it sits in a numpy array: NaN or a rational value. -/
inductive FVal where
  | nan
  | val (q : ℚ)
deriving Repr, DecidableEq

/-- IEEE-754 equality test: NaN compares unequal to everything, itself included.
This models the numpy elementwise comparison `array == np.nan`. -/
def FVal.ieeeEq : FVal → FVal → Bool
  | .val a, .val b => a == b
  | _, _ => false

/-- An XML attribute map (`element.attrib`): a Python dict from names to
strings, in document order. -/
abbrev Attrs := List (String × String)

/-- `d[k]` on a Python dict of strings: first (only) entry with key `k`,
`KeyError` when absent. -/
def getItem (a : Attrs) (k : String) : Exc String :=
  match a.find? (fun p => p.1 == k) with
  | some p => .ok p.2
  | none => .error (.keyError k)

/-- `xs[n]` on a Python list: `IndexError` when out of range. -/
def listIndex (xs : List α) (n : Nat) : Exc α :=
  match xs.get? n with
  | some x => .ok x
  | none => .error (.indexError "list index out of range")

/-- Python dict assignment `d[k] = v`: replace in place when the key exists
(keeping its position), append otherwise. -/
def dictInsert [DecidableEq κ] : List (κ × α) → κ → α → List (κ × α)
  | [], k, v => [(k, v)]
  | p :: t, k, v => if p.1 = k then (k, v) :: t else p :: dictInsert t k v

/-- Python dict read `d[k]` as an `Option`. -/
def dictFind [DecidableEq κ] : List (κ × α) → κ → Option α
  | [], _ => none
  | p :: t, k => if p.1 = k then some p.2 else dictFind t k

/-- Value of a list of decimal digit characters. -/
def digitsVal (cs : List Char) : Nat :=
  cs.foldl (fun a c => a * 10 + (c.toNat - 48)) 0

/-- Unsigned decimal literal (`"12"`, `"1.5"`, `".5"`, `"5."`) as a rational;
`none` when malformed. -/
def parseDecimal (cs : List Char) : Option ℚ :=
  let ip := cs.takeWhile Char.isDigit
  let rest := cs.dropWhile Char.isDigit
  match rest with
  | [] => if ip.isEmpty then none else some ((digitsVal ip : ℚ))
  | '.' :: fr =>
      if fr.all Char.isDigit && !(ip.isEmpty && fr.isEmpty) then
        some ((digitsVal ip : ℚ) + (digitsVal fr : ℚ) / ((10 : ℚ) ^ fr.length))
      else none
  | _ => none

/-- Python `float(s)` on the decimal literals the SMOG files use: optional
sign, digits, optional fraction; `ValueError` otherwise (exponents,
whitespace padding and the like are outside the scope of the claims). -/
def pyFloat (s : String) : Exc ℚ :=
  let neg : Bool × List Char :=
    match s.data with
    | '-' :: t => (true, t)
    | '+' :: t => (false, t)
    | t => (false, t)
  match parseDecimal neg.2 with
  | some q => .ok (if neg.1 then -q else q)
  | none => .error (.valueError ("could not convert string to float: " ++ s))

/-- Python `int(s)` on decimal integer literals: optional sign and a
nonempty digit run; `ValueError` otherwise. -/
def pyInt (s : String) : Exc Int :=
  let neg : Bool × List Char :=
    match s.data with
    | '-' :: t => (true, t)
    | '+' :: t => (false, t)
    | t => (false, t)
  if neg.2.isEmpty || !(neg.2.all Char.isDigit) then
    .error (.valueError ("invalid literal for int with base 10: " ++ s))
  else
    .ok (if neg.1 then -(digitsVal neg.2 : Int) else (digitsVal neg.2 : Int))

/-- Python `ch.lower()` for a single character: ASCII upper-case letters are
shifted into lower case, anything else is untouched (the inputs here are
ASCII file names). -/
def charLower (c : Char) : Char :=
  if 65 ≤ c.toNat ∧ c.toNat ≤ 90 then Char.ofNat (c.toNat + 32) else c

/-- Python `s.lower()` on ASCII strings. -/
def strLower (s : String) : String :=
  ⟨s.data.map charLower⟩

/-- Python `s.endswith(suffix)` as a test on character lists. -/
def listEndsWith (s suf : List Char) : Bool :=
  decide (suf.length ≤ s.length) && (s.drop (s.length - suf.length) == suf)

/-- Lexicographic order on character lists by code point, the order numpy
uses when sorting a string array. -/
def strLtB : List Char → List Char → Bool
  | [], [] => false
  | [], _ :: _ => true
  | _ :: _, [] => false
  | a :: s, b :: t =>
      if a.toNat < b.toNat then true
      else if b.toNat < a.toNat then false
      else strLtB s t

/-- Lexicographic order on strings by code point. -/
def strLt (a b : String) : Bool := strLtB a.data b.data

/-- An `xml.etree.ElementTree` element: tag, attribute dict, text, children.
`text` is modelled as a string, empty when the element has no text. -/
inductive XElem where
  | node (tag : String) (attrs : Attrs) (text : String) (children : List XElem)

def XElem.tag : XElem → String
  | .node t _ _ _ => t

def XElem.attrs : XElem → Attrs
  | .node _ a _ _ => a

def XElem.text : XElem → String
  | .node _ _ x _ => x

def XElem.children : XElem → List XElem
  | .node _ _ _ c => c

/-- `element.find(tag)`: first direct child with the given tag. -/
def XElem.findTag (e : XElem) (t : String) : Option XElem :=
  e.children.find? (fun c => c.tag == t)

mutual

/-- `element.iter()`: the element and all its descendants in document
order. -/
def XElem.iterAll : XElem → List XElem
  | .node t a x c => .node t a x c :: iterAllList c

def iterAllList : List XElem → List XElem
  | [] => []
  | e :: es => XElem.iterAll e ++ iterAllList es

end

/-- `element.iter(tag)`: the element and its descendants with the given tag,
in document order. -/
def XElem.iterTag (e : XElem) (t : String) : List XElem :=
  e.iterAll.filter (fun c => c.tag == t)

/-- `xml_data['contacts'] = [Expression, Parameters, Pairs, Force_Names]`,
the four parallel lists built by `import_xml2OpenSMOG`. -/
structure ContactData where
  expressions : List String
  parameters : List (List String)
  pairs : List (List Attrs)
  forceNames : List String
deriving Repr, DecidableEq

/-- `xml_data['nonbond'] = [NonBond_Num, NBExpression, NBExpressionParameters,
NBParameters]` built by `import_xml2OpenSMOG`. -/
structure NbData where
  nums : List Nat
  expressions : List String
  exprParameters : List (List String)
  nbParameters : List (List Attrs)
deriving Repr, DecidableEq

/-- The dict `self.data` returned by `import_xml2OpenSMOG`; the `'constants'`
and `'nonbond'` keys are present only when the XML has those sections. -/
structure XmlData where
  constants : Option (List (String × ℚ))
  contacts : ContactData
  nonbond : Option NbData
deriving Repr, DecidableEq

/-- One value of `self.contacts`: `[expression, parameter names, interaction
attribute maps]`. -/
structure ContactForceRec where
  expression : String
  parameters : List String
  pairs : List Attrs
deriving Repr, DecidableEq

/-- One value of `self.nonbond`: `[expression, expression parameter names,
nonbond_param attribute maps]`. -/
structure NbForceRec where
  expression : String
  parameters : List String
  nbParams : List Attrs
deriving Repr, DecidableEq

/-- An OpenMM `CustomBondForce` as populated by `_customSmogForce`. -/
structure CustomBondForce where
  energy : String
  perBondParams : List String
  bonds : List (Int × Int × List ℚ)
  globalParams : List (String × ℚ)
deriving Repr, DecidableEq

/-- An OpenMM `CustomNonbondedForce` as populated by `_customSmogForce_nb`.
Each tabulated function records `Discrete2DFunction(n, n, flattened table)`. -/
structure CustomNonbondedForce where
  energy : String
  perParticleParams : List String
  globalParams : List (String × ℚ)
  tabulated : List (String × Nat × Nat × List FVal)
  exclusions : List (Nat × Nat)
  particles : List (ℚ × Nat)
  cutoff : ℚ
deriving Repr, DecidableEq

/-- The kinds of force objects held by the system and `self.forcesDict`:
engine-generated forces from `createSystem` (of which the code reads the
per-particle charges of force 0 and the exclusions of force 1), and the
custom forces this code builds. -/
inductive ForceKind where
  | engineNonbonded (charges : List ℚ)
  | engineCustomNB (exclusions : List (Nat × Nat))
  | enginePlain (tag : String)
  | smogBond (f : CustomBondForce)
  | smogNB (f : CustomNonbondedForce)
deriving Repr, DecidableEq

/-- A force object together with its force group (OpenMM default group 0). -/
structure Force where
  kind : ForceKind
  group : Nat
deriving Repr, DecidableEq

/-- The OpenMM `System`: its particle count and its force list, in index
order (`addForce` appends, `removeForce(0)` drops the head). -/
structure PySystem where
  numParticles : Nat
  forces : List Force
deriving Repr, DecidableEq

/-- The OpenMM `Simulation` context as far as `createSimulation` populates
it: the system force list it was built from, and whether positions and
velocities were set. -/
structure PySimulation where
  systemForces : List Force
  positionsSet : Bool
  velocitiesSet : Bool
deriving Repr, DecidableEq

/-- The fields of the `SBM` object the claims touch.  Attributes that Python
code may read before any assignment (`constants_present`, `nonbond_present`,
`data`, `contacts`, `nonbond`, `simulation`) are `Option`s, `none` meaning
"not set" so that a read raises `AttributeError`/is a slip. -/
structure SBMSt where
  pbc : Bool
  forceApplied : Bool
  loaded : Bool
  forceCount : Nat
  forcesDict : List (String × Force)
  system : PySystem
  constants_present : Option Bool
  nonbond_present : Option Bool
  data : Option XmlData
  contacts : Option (List (String × ContactForceRec))
  nonbond : Option (List (Nat × NbForceRec))
  atom_types : List String
  topMolecules : List (String × Nat)
  topMoleculeTypes : List (String × List (List String))
  rcutoff : ℚ
  simulation : Option PySimulation
deriving Repr, DecidableEq

/-- `self.forceNamesCA` from `__init__`: dict from force index to name for
the 7-force (C-alpha) system. -/
def forceNamesCA : Nat → String
  | 0 => "electrostastic"
  | 1 => "Non-Contacts"
  | 2 => "Bonds"
  | 3 => "Angles"
  | 4 => "Dihedrals"
  | _ => ""

/-- `self.forceNamesAA` from `__init__`: dict from force index to name for
the 8-force (all-atom) system. -/
def forceNamesAA : Nat → String
  | 0 => "electrostastic+default"
  | 1 => "Non-Contacts+default"
  | 2 => "Bonds"
  | 3 => "Angles"
  | 4 => "Dihedrals"
  | 5 => "Impropers"
  | _ => ""

/-- `_splitForces_contacts`: `forces[names[n]] = [exprs[n], params[n],
pairs[n]]` for `n` in `range(len(names))`; list indexing may raise
`IndexError` when the parallel lists are shorter than the name list. -/
def splitForces_contacts (cd : ContactData) : Exc (List (String × ContactForceRec)) :=
  (List.range cd.forceNames.length).foldlM
    (fun d n => do
      let nm ← listIndex cd.forceNames n
      let e ← listIndex cd.expressions n
      let p ← listIndex cd.parameters n
      let q ← listIndex cd.pairs n
      pure (dictInsert d nm ⟨e, p, q⟩))
    []

/-- `_splitForces_nb`: `forces[nums[n]] = [exprs[n], exprParams[n],
nbParams[n]]` for `n` in `range(len(nums))`. -/
def splitForces_nb (nd : NbData) : Exc (List (Nat × NbForceRec)) :=
  (List.range nd.nums.length).foldlM
    (fun d n => do
      let nm ← listIndex nd.nums n
      let e ← listIndex nd.expressions n
      let p ← listIndex nd.exprParameters n
      let q ← listIndex nd.nbParameters n
      pure (dictInsert d nm ⟨e, p, q⟩))
    []

/-- The global-parameter block shared by `_customSmogForce` and
`_customSmogForce_nb`: `if self.constants_present == True: ... add every
constant of self.data['constants']`.  Reading the never-initialized
`constants_present` raises `AttributeError`; `self.data['constants']` raises
`KeyError` when the key is absent. -/
def constantsBlock (st : SBMSt) : Exc (List (String × ℚ)) :=
  match st.constants_present with
  | none => .error (.attributeError "SBM object has no attribute constants_present")
  | some b =>
      if b then
        match st.data with
        | none => .error (.attributeError "SBM object has no attribute data")
        | some xd =>
            match xd.constants with
            | none => .error (.keyError "constants")
            | some cs => .ok cs
      else .ok []

/-- The `addBond` loop of `_customSmogForce`: one bond per interaction, with
particle indices `int(it['i'])-1` and `int(it['j'])-1` and parameter values
`[float(it[k]) for k in pars]`. -/
def addBondLoop (pars : List String) : CustomBondForce → List Attrs → Exc CustomBondForce
  | f, [] => .ok f
  | f, it :: rest => do
      let si ← getItem it "i"
      let i ← pyInt si
      let sj ← getItem it "j"
      let j ← pyInt sj
      let vs ← pars.mapM (fun k => do
        let v ← getItem it k
        pyFloat v)
      addBondLoop pars { f with bonds := f.bonds ++ [(i - 1, j - 1, vs)] } rest

/-- `_customSmogForce`: build a `CustomBondForce` from one contact record and
register it: the energy expression, the per-bond parameters appended in list
order, the `addBond` loop, the constants block; finally
`self.forcesDict[name] = force`, `setForceGroup(self.forceCount)`,
`self.forceCount += 1` (the group is set on the value before it is stored
here, which is observationally the same as the aliased in-place update). -/
def customSmogForce (st : SBMSt) (name : String) (data : ContactForceRec) :
    Exc SBMSt := do
  let ff0 : CustomBondForce :=
    { energy := data.expression, perBondParams := [], bonds := [], globalParams := [] }
  let ff1 := data.parameters.foldl
    (fun f p => { f with perBondParams := f.perBondParams ++ [p] }) ff0
  let pars := data.parameters.map (fun p => p)
  let ff2 ← addBondLoop pars ff1 data.pairs
  let cs ← constantsBlock st
  let ff3 := cs.foldl
    (fun (f : CustomBondForce) c => { f with globalParams := f.globalParams ++ [c] }) ff2
  let force : Force := { kind := .smogBond ff3, group := st.forceCount }
  pure { st with
    forcesDict := dictInsert st.forcesDict name force
    forceCount := st.forceCount + 1 }

/-- Insert a string into a strictly sorted list, keeping it sorted and
duplicate-free. -/
def insertSorted (x : String) : List String → List String
  | [] => [x]
  | y :: t =>
      if strLt x y then x :: y :: t
      else if x = y then y :: t
      else y :: insertSorted x t

/-- `np.unique` on a list of strings: the distinct values in sorted order. -/
def npUnique (l : List String) : List String :=
  l.foldl (fun acc x => insertSorted x acc) []

/-- `np.where(l == x)[0][0]`: index of the first occurrence of `x`,
`IndexError` when there is none. -/
def npWhere0 (l : List String) (x : String) : Exc Nat :=
  match l.findIdx? (fun y => y == x) with
  | some i => .ok i
  | none => .error (.indexError "index 0 is out of bounds for axis 0 with size 0")

/-- `np.ones([n, n]) * np.nan`: an n-by-n matrix of NaNs. -/
def nanMatrix (n : Nat) : List (List FVal) :=
  List.replicate n (List.replicate n FVal.nan)

/-- `m[i][j] = v` on a matrix; the code only ever uses indices produced by
`npWhere0` on the index the matrix was sized from, so they are in range. -/
def matSet (m : List (List FVal)) (i j : Nat) (v : FVal) : List (List FVal) :=
  match m.get? i with
  | some row => m.set i (row.set j v)
  | none => m

/-- `np.sum(m == np.nan)`: the number of entries for which the IEEE
comparison with NaN yields true (identically `0`, since NaN compares
unequal to everything). -/
def countEqNan (m : List (List FVal)) : Nat :=
  (m.map (fun row => (row.filter (fun v => FVal.ieeeEq v FVal.nan)).length)).sum

/-- First phase of `_customSmogForce_nb` (everything before the assignment to
`self.atom_types`): the constants block, the `r_c` global parameter, and
`self.system.getForce(0)` / `getForce(1)`. -/
def nbStage1 (st : SBMSt) : Exc (List (String × ℚ) × Force × Force) := do
  let cs ← constantsBlock st
  let globals := cs ++ [("r_c", st.rcutoff)]
  let f0 ← listIndex st.system.forces 0
  let f1 ← listIndex st.system.forces 1
  pure (globals, f0, f1)

/-- The table-filling loop of `_customSmogForce_nb`: for each `nonbond_param`
entry, resolve its two types in the type index and write the entry's value
for every parameter into both symmetric cells of that parameter's table. -/
def fillTables (ats : List String) (tables : List (String × List (List FVal)))
    (entries : List Attrs) : Exc (List (String × List (List FVal))) :=
  entries.foldlM
    (fun tabs a => do
      let s1 ← getItem a "type1"
      let t1 ← npWhere0 ats s1
      let s2 ← getItem a "type2"
      let t2 ← npWhere0 ats s2
      tabs.mapM (fun pt => do
        let v ← getItem a pt.1
        let q ← pyFloat v
        pure (pt.1, matSet (matSet pt.2 t1 t2 (FVal.val q)) t2 t1 (FVal.val q))))
    tables

/-- The body of the per-parameter check-and-register loop of
`_customSmogForce_nb`: raise when `np.sum(table == np.nan) != 0`, otherwise
register `Discrete2DFunction(n, n, ravel(table))` and continue. -/
def tabulateGo (n : Nat) (tables : List (String × List (List FVal))) :
    List (String × Nat × Nat × List FVal) → List String →
    Exc (List (String × Nat × Nat × List FVal))
  | acc, [] => .ok acc
  | acc, par :: rest => do
      let tbl ← match dictFind tables par with
        | some t => Except.ok t
        | none => Except.error (.keyError par)
      if countEqNan tbl ≠ 0 then
        Except.error (.valueError ("Nonbonded force parameter: " ++ par ++
          " is not defined for all atom interactions"))
      else
        tabulateGo n tables (acc ++ [(par, n, n, tbl.flatten)]) rest

/-- The per-parameter check-and-register loop of `_customSmogForce_nb` over
`data[1]`. -/
def tabulateLoop (n : Nat) (tables : List (String × List (List FVal)))
    (ps : List String) : Exc (List (String × Nat × Nat × List FVal)) :=
  tabulateGo n tables [] ps

/-- The molecule loop of `_customSmogForce_nb`: for each molecule of
`self.Top._molecules`, for each of its atoms, append the atom's type
(`atom[1]`) once per multiplicity. -/
def topAtomTypes (st : SBMSt) : Exc (List String) :=
  st.topMolecules.foldlM
    (fun acc p => do
      let atoms ← match dictFind st.topMoleculeTypes p.1 with
        | some a => Except.ok a
        | none => Except.error (.keyError p.1)
      let ts ← atoms.mapM (fun atom => listIndex atom 1)
      pure (acc ++ ts.flatMap (fun t => List.replicate p.2 t)))
    []

/-- Second phase of `_customSmogForce_nb` (everything after the assignment to
`self.atom_types`, which `st` already carries): tables, the never-firing NaN
check, tabulated functions, exclusion and charge copies, particles, and the
final registration into `forcesDict` under `'Nonbonded' + str(name)`. -/
def nbStage2 (st : SBMSt) (name : Nat) (data : NbForceRec)
    (globals : List (String × ℚ)) (f0 f1 : Force) : Exc SBMSt := do
  let natom_types := st.atom_types.length
  let tables0 := data.parameters.foldl
    (fun tabs par => dictInsert tabs par (nanMatrix natom_types)) []
  let tables ← fillTables st.atom_types tables0 data.nbParams
  let tabulated ← tabulateLoop natom_types tables data.parameters
  let ex ← match f1.kind with
    | .engineCustomNB e => Except.ok e
    | _ => Except.error (.attributeError "object has no attribute getNumExclusions")
  let exclusions ← (List.range ex.length).mapM (fun i => listIndex ex i)
  let ch ← match f0.kind with
    | .engineNonbonded c => Except.ok c
    | _ => Except.error (.attributeError "object has no attribute getParticleParameters")
  let atom_charges ← (List.range st.system.numParticles).mapM (fun i => listIndex ch i)
  let topTypes ← topAtomTypes st
  let particles ← (List.range st.system.numParticles).mapM (fun i => do
    let t ← listIndex topTypes i
    let at_type ← npWhere0 st.atom_types t
    let charge ← listIndex atom_charges i
    pure (charge, at_type))
  let nbff : CustomNonbondedForce :=
    { energy := data.expression
      perParticleParams := ["q", "type"]
      globalParams := globals
      tabulated := tabulated
      exclusions := exclusions
      particles := particles
      cutoff := st.rcutoff }
  let force : Force := { kind := .smogNB nbff, group := st.forceCount }
  pure { st with
    forcesDict := dictInsert st.forcesDict ("Nonbonded" ++ toString name) force
    forceCount := st.forceCount + 1 }

/-- `_customSmogForce_nb`: build and register one `CustomNonbondedForce`.
The result pairs the state with an optional raised error, because the
assignment `self.atom_types = np.unique(...)` happens midway and survives a
later raise; all other attribute writes happen at the very end. -/
def customSmogForce_nb (st : SBMSt) (name : Nat) (data : NbForceRec) :
    SBMSt × Option PyError :=
  match nbStage1 st with
  | .error e => (st, some e)
  | .ok (globals, f0, f1) =>
      match data.nbParams.mapM (fun a => getItem a "type1") with
      | .error e => (st, some e)
      | .ok t1s =>
          let st := { st with atom_types := npUnique t1s }
          match nbStage2 st name data globals f0 f1 with
          | .error e => (st, some e)
          | .ok st' => (st', none)

/-- One iteration of the contacts loop of `import_xml2OpenSMOG`: the names of
the `contacts_type` descendants, the `expr` attributes of the `expression`
descendants, the texts of the `parameter` descendants, and the attribute maps
of the `interaction` descendants of one child of the contacts element. -/
def processContactChild (c : XElem) :
    Exc (List String × List String × List String × List Attrs) := do
  let names ← (c.iterTag "contacts_type").mapM (fun n => getItem n.attrs "name")
  let exprs ← (c.iterTag "expression").mapM (fun e => getItem e.attrs "expr")
  let pars := (c.iterTag "parameter").map (fun p => p.text)
  let prs := (c.iterTag "interaction").map (fun a => a.attrs)
  pure (names, exprs, pars, prs)

/-- The contacts loop of `import_xml2OpenSMOG` over the children of the
contacts element: names and expressions are appended flat, parameter and
interaction lists are appended one sublist per child. -/
def contactsFold (children : List XElem) : Exc ContactData :=
  children.foldlM
    (fun (cd : ContactData) c => do
      let (names, exprs, pars, prs) ← processContactChild c
      pure { expressions := cd.expressions ++ exprs
             parameters := cd.parameters ++ [pars]
             pairs := cd.pairs ++ [prs]
             forceNames := cd.forceNames ++ names })
    ⟨[], [], [], []⟩

/-- The nonbond loop of `import_xml2OpenSMOG` over the children of the
nonbond element: the child index is appended once per `nonbond_bytype`
descendant, expressions flat, parameter names and `nonbond_param` attribute
maps one sublist per child. -/
def nonbondFold (children : List XElem) : Exc NbData :=
  children.enum.foldlM
    (fun (nd : NbData) p => do
      let nums := (p.2.iterTag "nonbond_bytype").map (fun _ => p.1)
      let exprs ← (p.2.iterTag "expression").mapM (fun e => getItem e.attrs "expr")
      let pars := (p.2.iterTag "parameter").map (fun x => x.text)
      let nbs := (p.2.iterTag "nonbond_param").map (fun a => a.attrs)
      pure { nums := nd.nums ++ nums
             expressions := nd.expressions ++ exprs
             exprParameters := nd.exprParameters ++ [pars]
             nbParameters := nd.nbParameters ++ [nbs] })
    ⟨[], [], [], []⟩

/-- The constants loop of `import_xml2OpenSMOG`: one dict entry per
`constant` element, `float(...)` applied to the `value` attribute. -/
def constantsDict (ce : XElem) : Exc (List (String × ℚ)) :=
  (ce.iterTag "constant").foldlM
    (fun d c => do
      let nm ← getItem c.attrs "name"
      let v ← getItem c.attrs "value"
      let q ← pyFloat v
      pure (dictInsert d nm q))
    []

/-- `import_xml2OpenSMOG`: reads the version element (raising
`AttributeError` on the `None` returned by a failed `find`), the optional
constants dict, the mandatory contacts section (`ValueError` when absent)
and the optional nonbond section (`ValueError` when present with periodic
boundary conditions off).  The attribute writes `self.constants_present =
True` (performed as soon as a constants section is found, before its values
are parsed) and `self.nonbond_present = True` (performed after the PBC
check, before the nonbond section is parsed) survive a later raise, so the
function returns the pair of updated attribute values alongside the
`Except`-modelled result. -/
def import_xml2OpenSMOG (pbc : Bool) (cp nbp : Option Bool) (root : XElem) :
    (Option Bool × Option Bool) × Exc XmlData :=
  match root.findTag "OpenSMOGminVersion" with
  | none => ((cp, nbp), .error (.attributeError "NoneType object has no attribute text"))
  | some _ =>
      let cres : Option Bool × Exc (Option (List (String × ℚ))) :=
        match root.findTag "constants" with
        | some ce =>
            (some true,
              match constantsDict ce with
              | .error e => .error e
              | .ok cs => .ok (some cs))
        | none => (cp, .ok none)
      match cres.2 with
      | .error e => ((cres.1, nbp), .error e)
      | .ok constants =>
          match root.findTag "contacts" with
          | none =>
              ((cres.1, nbp), .error (.valueError "No contacts were found in the XML file"))
          | some contactsEl =>
              match contactsFold contactsEl.children with
              | .error e => ((cres.1, nbp), .error e)
              | .ok cd =>
                  match root.findTag "nonbond" with
                  | some ne =>
                      if pbc = false then
                        ((cres.1, nbp),
                          .error (.valueError "Nonbonded forces found, but PBC is off"))
                      else
                        match nonbondFold ne.children with
                        | .error e => ((cres.1, some true), .error e)
                        | .ok nd => ((cres.1, some true), .ok ⟨constants, cd, some nd⟩)
                  | none => ((cres.1, nbp), .ok ⟨constants, cd, none⟩)

/-- `system.addForce`: appends and returns the new index. -/
def addForce (s : PySystem) (f : Force) : PySystem :=
  { s with forces := s.forces ++ [f] }

/-- `system.removeForce(0)`: drop the force at index 0. -/
def removeForce0 (s : PySystem) : Exc PySystem :=
  match s.forces with
  | [] => .error (.indexError "Index out of range")
  | _ :: t => .ok { s with forces := t }

/-- The contacts loop of `loadXml`: for each entry of `self.contacts`, run
`_customSmogForce` then `self.system.addForce(self.forcesDict[force])`.
A raise keeps the mutations already performed. -/
def applyContactForces : SBMSt → List (String × ContactForceRec) → SBMSt × Option PyError
  | st, [] => (st, none)
  | st, (nm, r) :: rest =>
      match customSmogForce st nm r with
      | .error e => (st, some e)
      | .ok st' =>
          match dictFind st'.forcesDict nm with
          | none => (st', some (.keyError nm))
          | some f => applyContactForces { st' with system := addForce st'.system f } rest

/-- The nonbond loop of `loadXml`: for each entry of `self.nonbond`, run
`_customSmogForce_nb` then `addForce(self.forcesDict['Nonbonded'+str(force)])`. -/
def applyNbForces : SBMSt → List (Nat × NbForceRec) → SBMSt × Option PyError
  | st, [] => (st, none)
  | st, (nm, r) :: rest =>
      match customSmogForce_nb st nm r with
      | (st', some e) => (st', some e)
      | (st', none) =>
          match dictFind st'.forcesDict ("Nonbonded" ++ toString nm) with
          | none => (st', some (.keyError ("Nonbonded" ++ toString nm)))
          | some f => applyNbForces { st' with system := addForce st'.system f } rest

/-- The nonbond phase at the end of `loadXml`: the `self.nonbond_present`
check (`AttributeError` when the attribute was never assigned), the nonbond
split, the nonbond force loop, and the two `removeForce(0)` calls. -/
def loadXmlNbPhase (xd : XmlData) (st1 : SBMSt) : SBMSt × Option PyError :=
  match st1.nonbond_present with
  | none => (st1, some (.attributeError "SBM object has no attribute nonbond_present"))
  | some b =>
      if b then
        match xd.nonbond with
        | none => (st1, some (.keyError "nonbond"))
        | some nd =>
            match splitForces_nb nd with
            | .error e => (st1, some e)
            | .ok nb =>
                let st2 := { st1 with nonbond := some nb }
                match applyNbForces st2 nb with
                | (st3, some e) => (st3, some e)
                | (st3, none) =>
                    match removeForce0 st3.system with
                    | .error e => (st3, some e)
                    | .ok sys1 =>
                        match removeForce0 sys1 with
                        | .error e => ({ st3 with system := sys1 }, some e)
                        | .ok sys2 =>
                            ({ st3 with system := sys2, forceApplied := true }, none)
      else ({ st1 with forceApplied := true }, none)

/-- The middle of `loadXml`: `_splitForces_contacts`, the contact force
loop, then the nonbond phase. -/
def loadXmlContactsPhase (xd : XmlData) (st : SBMSt) : SBMSt × Option PyError :=
  match splitForces_contacts xd.contacts with
  | .error e => (st, some e)
  | .ok contacts =>
      let st := { st with contacts := some contacts }
      match applyContactForces st contacts with
      | (st1, some e) => (st1, some e)
      | (st1, none) => loadXmlNbPhase xd st1

/-- `loadXml`.  Schema validation runs through `lxml` against the bundled
`share/OpenSMOG_nb.xsd`, which is outside the repository source; it is
passed in as the oracle `validate`.  The result pairs the final state with
the raised error, if any, so that mutations preceding a raise are kept. -/
def loadXml (validate : XElem → Bool) (root : XElem) (st : SBMSt) :
    SBMSt × Option PyError :=
  if st.forceApplied then (st, none)
  else if validate root = false then
    (st, some (.valueError "The xml file is not in the correct format"))
  else
    match import_xml2OpenSMOG st.pbc st.constants_present st.nonbond_present root with
    | ((cp, nbp), .error e) =>
        ({ st with constants_present := cp, nonbond_present := nbp }, some e)
    | ((cp, nbp), .ok xd) =>
        loadXmlContactsPhase xd
          { st with data := some xd, constants_present := cp, nonbond_present := nbp }

/-- The group assignment of the `loadTop` loop: in a 7-force system the
first five forces get groups `0..4` and the rest group 30; in an 8-force
system the first six get `0..5` and the rest 30; any other size is left
untouched. -/
def loadTopAssign (nforces fid : Nat) (f : Force) : Force :=
  if nforces = 7 then
    (if fid ≤ 4 then { f with group := fid } else { f with group := 30 })
  else if nforces = 8 then
    (if fid ≤ 5 then { f with group := fid } else { f with group := 30 })
  else f

/-- The registration loop of `loadTop` over the engine-created system `sys`
(whose forces carry OpenMM's default group 0): assign groups and register
the named forces into `self.forcesDict`, incrementing `self.forceCount`
once per registration. -/
def loadTopStep (nforces : Nat) (sa : SBMSt × List Force) (p : Nat × Force) :
    SBMSt × List Force :=
  let f := loadTopAssign nforces p.1 p.2
  if nforces = 7 ∧ p.1 ≤ 4 then
    ({ sa.1 with forcesDict := dictInsert sa.1.forcesDict (forceNamesCA p.1) f
                 forceCount := sa.1.forceCount + 1 }, sa.2 ++ [f])
  else if nforces = 8 ∧ p.1 ≤ 5 then
    ({ sa.1 with forcesDict := dictInsert sa.1.forcesDict (forceNamesAA p.1) f
                 forceCount := sa.1.forceCount + 1 }, sa.2 ++ [f])
  else (sa.1, sa.2 ++ [f])

def loadTopRegister (st0 : SBMSt) (sys : PySystem) : SBMSt :=
  let r := sys.forces.enum.foldl (loadTopStep sys.forces.length) (st0, [])
  { r.1 with system := { sys with forces := r.2 } }

/-- `createSimulation`: builds the simulation context, sets positions and
velocities, and flips `self.loaded`; a second call does nothing. -/
def createSimulation (st : SBMSt) : SBMSt :=
  if st.loaded = false then
    { st with
      simulation := some { systemForces := st.system.forces
                           positionsSet := true
                           velocitiesSet := true }
      loaded := true }
  else st

/-- `_check_file`: `ValueError` when `filename.lower()` does not end with
the required extension. -/
def check_file (filename ext : String) : Exc Unit :=
  if !(listEndsWith (strLower filename).data ext.data) then
    .error (.valueError ("Wrong file extension: " ++ filename ++ " must to be "
      ++ ext ++ " extension"))
  else .ok ()

/-- The three loading steps of `loadSystem`, in the order it performs them. -/
inductive LoadAction where
  | loadGro
  | loadTop
  | loadXmlFile
deriving Repr, DecidableEq

/-- `loadSystem` reduced to its check/load skeleton: each extension check
runs immediately before the corresponding load, and a failing check aborts
the sequence.  The result is the list of loads performed plus the raised
error, if any (the actual file loads are engine calls, abstracted as trace
events). -/
def loadSystem (gro top xml : String) : List LoadAction × Option PyError :=
  match check_file gro ".gro" with
  | .error e => ([], some e)
  | .ok _ =>
      match check_file top ".top" with
      | .error e => ([.loadGro], some e)
      | .ok _ =>
          match check_file xml ".xml" with
          | .error e => ([.loadGro, .loadTop], some e)
          | .ok _ => ([.loadGro, .loadTop, .loadXmlFile], none)

/-- Claim-side description (C1) of one added bond: particle indices are the
`i` and `j` attributes each decreased by one, parameter values are the
attributes named in `ps`, in the order of `ps`, converted to floats. -/
def claimBond (ps : List String) (it : Attrs) : Exc (Int × Int × List ℚ) := do
  let si ← getItem it "i"
  let i ← pyInt si
  let sj ← getItem it "j"
  let j ← pyInt sj
  let vs ← ps.mapM (fun k => do
    let v ← getItem it k
    pyFloat v)
  pure (i - 1, j - 1, vs)

/-- Modelled from the spec: the bundled XML schema (`share/OpenSMOG_nb.xsd`,
not part of the repository source tree given here) validates the document
structure; for the claims only these consequences are needed: a version
element is present, constant entries carry well-formed `name`/`value`
attributes, and `contacts_type`/`expression` elements carry their `name` /
`expr` attributes. -/
def schemaBasicOK (root : XElem) : Bool :=
  (root.findTag "OpenSMOGminVersion").isSome &&
  (match root.findTag "constants" with
   | some ce => (ce.iterTag "constant").all (fun c =>
        (getItem c.attrs "name").isOk &&
        (match getItem c.attrs "value" with
         | .ok v => (pyFloat v).isOk
         | .error _ => false))
   | none => true) &&
  (match root.findTag "contacts" with
   | some ce => ce.children.all (fun c =>
        ((c.iterTag "contacts_type").all (fun n => (getItem n.attrs "name").isOk)) &&
        ((c.iterTag "expression").all (fun x => (getItem x.attrs "expr").isOk)))
   | none => true)

/-- The forces registered in `forcesDict` occupy pairwise distinct force
groups. -/
def GroupsDistinct (d : List (String × Force)) : Prop :=
  d.Pairwise (fun a b => a.2.group ≠ b.2.group)

/-- Registration invariant: groups in the dict are pairwise distinct and all
below the counter. -/
def RegOK (d : List (String × Force)) (c : Nat) : Prop :=
  GroupsDistinct d ∧ ∀ p ∈ d, p.2.group < c

/-- The `SBM` state right after `__init__` and `setup_openmm`: flags down,
empty dicts, counter zero, no attribute among the optional ones set. -/
def initSt (pbc : Bool) (rc : ℚ) : SBMSt :=
  { pbc := pbc, forceApplied := false, loaded := false, forceCount := 0,
    forcesDict := [], system := ⟨0, []⟩, constants_present := none,
    nonbond_present := none, data := none, contacts := none, nonbond := none,
    atom_types := [], topMolecules := [], topMoleculeTypes := [],
    rcutoff := rc, simulation := none }

/-- A schema-valid document with a contacts section holding one contact type
but no constants section (and no nonbond section). -/
def c4root : XElem :=
  .node "OpenSMOG" [] "" [
    .node "OpenSMOGminVersion" [] "1.0.2" [],
    .node "contacts" [] "" [
      .node "contact" [] "" [
        .node "contacts_type" [("name", "c1")] "" [
          .node "expression" [("expr", "eps*r")] "" [],
          .node "parameter" [] "eps" [],
          .node "interaction" [("i", "1"), ("j", "2"), ("eps", "2")] "" []]]]]

/-- A schema-valid document with a constants section but no contacts
section: `import_xml2OpenSMOG` sets `constants_present` and then raises the
no-contacts `ValueError`. -/
def c5root : XElem :=
  .node "OpenSMOG" [] "" [
    .node "OpenSMOGminVersion" [] "1.0.2" [],
    .node "constants" [] "" [.node "constant" [("name", "kap"), ("value", "2")] "" []]]

/-- A state holding a 2-particle system with the two engine nonbonded
forces, constants set, and a two-atom topology with types `A` and `B`. -/
def c2st : SBMSt :=
  { initSt true 3 with
    system := ⟨2, [⟨.engineNonbonded [1, -1], 0⟩, ⟨.engineCustomNB [(0, 1)], 0⟩]⟩,
    constants_present := some true,
    data := some ⟨some [("kap", 2)], ⟨[], [], [], []⟩, none⟩,
    topMolecules := [("m", 1)],
    topMoleculeTypes := [("m", [["1", "A"], ["2", "B"]])] }

/-- A nonbonded record whose parameter `eps` is defined for the type pairs
`(A,A)` and `(B,B)` but not for the mixed pair `(A,B)`. -/
def c2rec : NbForceRec :=
  { expression := "eps(type1,type2)/r", parameters := ["eps"],
    nbParams := [[("type1", "A"), ("type2", "A"), ("eps", "1")],
                 [("type1", "B"), ("type2", "B"), ("eps", "2")]] }

/-- The nonbonded force `_customSmogForce_nb` builds from `c2st`/`c2rec`:
the `eps` table is registered with NaN in both mixed-pair cells. -/
def c2nb : CustomNonbondedForce :=
  { energy := "eps(type1,type2)/r"
    perParticleParams := ["q", "type"]
    globalParams := [("kap", 2), ("r_c", 3)]
    tabulated := [("eps", 2, 2, [.val 1, .nan, .nan, .val 2])]
    exclusions := [(0, 1)]
    particles := [(1, 0), (-1, 1)]
    cutoff := 3 }

/-- A nonbonded record referencing type `B` only through a `type2`
attribute. -/
def c3rec : NbForceRec :=
  { expression := "e", parameters := ["eps"],
    nbParams := [[("type1", "A"), ("type2", "B"), ("eps", "1")]] }

/-- A state ready for `_customSmogForce` (constants set). -/
def c1st : SBMSt :=
  { initSt true 3 with
    constants_present := some true,
    data := some ⟨some [("kap", 2)], ⟨[], [], [], []⟩, none⟩ }

/-- A schema-valid document with constants, one contact record and one
nonbonded record over types `A` and `B`. -/
def c10root : XElem :=
  .node "OpenSMOG" [] "" [
    .node "OpenSMOGminVersion" [] "1.0.2" [],
    .node "constants" [] "" [.node "constant" [("name", "kap"), ("value", "2")] "" []],
    .node "contacts" [] "" [
      .node "contact" [] "" [
        .node "contacts_type" [("name", "c1")] "" [
          .node "expression" [("expr", "eps*r")] "" [],
          .node "parameter" [] "eps" [],
          .node "interaction" [("i", "1"), ("j", "2"), ("eps", "2")] "" []]]],
    .node "nonbond" [] "" [
      .node "nonbond_bytype" [] "" [
        .node "expression" [("expr", "f(type1,type2)")] "" [],
        .node "parameter" [] "eps" [],
        .node "nonbond_param" [("type1", "A"), ("type2", "A"), ("eps", "1")] "" [],
        .node "nonbond_param" [("type1", "B"), ("type2", "B"), ("eps", "2")] "" [],
        .node "nonbond_param" [("type1", "A"), ("type2", "B"), ("eps", "3")] "" []]]]

/-- `c2st` without the constants attributes: the state right before
`loadXml` runs on `c10root`. -/
def c10st : SBMSt :=
  { initSt true 3 with
    system := ⟨2, [⟨.engineNonbonded [1, -1], 0⟩, ⟨.engineCustomNB [(0, 1)], 0⟩]⟩,
    topMolecules := [("m", 1)],
    topMoleculeTypes := [("m", [["1", "A"], ["2", "B"]])] }

/-- Parsed contact data with two records carrying distinct force names. -/
def c7cd : ContactData :=
  { expressions := ["e1", "e2"]
    parameters := [["a"], ["b", "c"]]
    pairs := [[[("i", "1"), ("j", "2"), ("a", "1")]], []]
    forceNames := ["f1", "f2"] }

/-- A state in which both one-shot flags are already up. -/
def c8st : SBMSt :=
  { initSt true 3 with
    forceApplied := true
    loaded := true
    simulation := some ⟨[], true, true⟩ }

/-- An engine system of seven anonymous forces, as `createSystem` produces
for a C-alpha model. -/
def sys7 : PySystem :=
  ⟨2, List.replicate 7 ⟨.enginePlain "t", 0⟩⟩

/-- An engine system of eight anonymous forces, as `createSystem` produces
for an all-atom model. -/
def sys8 : PySystem :=
  ⟨2, List.replicate 8 ⟨.enginePlain "t", 0⟩⟩

/-- The state `_customSmogForce` leaves behind on `c1st` with one parameter
and one interaction. -/
def c1res : SBMSt :=
  { c1st with
    forcesDict := [("c1",
      ⟨.smogBond ⟨"eps*r", ["eps"], [(0, 1, [2])], [("kap", 2)]⟩, 0⟩)]
    forceCount := 1 }

theorem exc_bind_ok (a : α) (f : α → Exc β) : (Except.ok a >>= f) = f a := rfl

theorem exc_bind_error (e : PyError) (f : α → Exc β) :
    ((Except.error e : Exc α) >>= f) = .error e := rfl

theorem exc_bind_ok_iff (x : Exc α) (f : α → Exc β) (b : β) :
    (x >>= f) = .ok b ↔ ∃ a, x = .ok a ∧ f a = .ok b := by
  cases x with
  | error e => simp [exc_bind_error]
  | ok a => simp [exc_bind_ok]

theorem listIndex_ok {l : List α} {n : Nat} {a : α} (h : listIndex l n = .ok a) :
    l.get? n = some a := by
  unfold listIndex at h
  cases hg : l.get? n with
  | none => rw [hg] at h; cases h
  | some x => rw [hg] at h; cases h; rfl

theorem listIndex_ok_lt {l : List α} {n : Nat} {a : α} (h : listIndex l n = .ok a) :
    n < l.length := by
  have hx := listIndex_ok h
  by_contra hn
  rw [List.get?_eq_none.mpr (Nat.le_of_not_lt hn)] at hx
  cases hx

theorem dictFind_insert_self [DecidableEq κ] (d : List (κ × α)) (k : κ) (v : α) :
    dictFind (dictInsert d k v) k = some v := by
  induction d with
  | nil => simp [dictInsert, dictFind]
  | cons p t ih => by_cases h : p.1 = k <;> simp [dictInsert, dictFind, h, ih]

theorem mem_dictInsert [DecidableEq κ] {d : List (κ × α)} {k : κ} {v : α} {x : κ × α}
    (h : x ∈ dictInsert d k v) : x = (k, v) ∨ x ∈ d := by
  induction d with
  | nil => simpa [dictInsert] using h
  | cons p t ih =>
      by_cases hp : p.1 = k
      · simp only [dictInsert, if_pos hp, List.mem_cons] at h
        rcases h with h | h
        · exact .inl h
        · exact .inr (List.mem_cons_of_mem _ h)
      · simp only [dictInsert, if_neg hp, List.mem_cons] at h
        rcases h with h | h
        · exact .inr (by simp [h])
        · rcases ih h with h' | h'
          · exact .inl h'
          · exact .inr (List.mem_cons_of_mem _ h')

theorem dictFind_none_iff [DecidableEq κ] (d : List (κ × α)) (k : κ) :
    dictFind d k = none ↔ k ∉ d.map Prod.fst := by
  induction d with
  | nil => simp [dictFind]
  | cons p t ih =>
      by_cases hp : p.1 = k
      · simp [dictFind, hp]
      · simp only [dictFind, if_neg hp, List.map_cons, List.mem_cons]
        rw [ih]
        constructor
        · intro h hk
          rcases hk with hk | hk
          · exact hp hk.symm
          · exact h hk
        · intro h hk
          exact h (Or.inr hk)

theorem dictInsert_fresh [DecidableEq κ] (d : List (κ × α)) (k : κ) (v : α)
    (h : k ∉ d.map Prod.fst) : dictInsert d k v = d ++ [(k, v)] := by
  induction d with
  | nil => rfl
  | cons p t ih =>
      simp only [List.map_cons, List.mem_cons, not_or] at h
      have hp : ¬ p.1 = k := fun hh => h.1 hh.symm
      simp only [dictInsert, if_neg hp, List.cons_append]
      rw [ih h.2]

theorem dictFind_append_left [DecidableEq κ] (d t : List (κ × α)) (k : κ) (v : α)
    (h : dictFind d k = some v) : dictFind (d ++ t) k = some v := by
  induction d with
  | nil => simp [dictFind] at h
  | cons p s ih =>
      by_cases hp : p.1 = k
      · simp only [dictFind, if_pos hp] at h
        simp only [List.cons_append, dictFind, if_pos hp, h]
      · simp only [dictFind, if_neg hp] at h
        simp only [List.cons_append, dictFind, if_neg hp]
        exact ih h

theorem dictFind_append_right [DecidableEq κ] (d t : List (κ × α)) (k : κ)
    (h : k ∉ d.map Prod.fst) : dictFind (d ++ t) k = dictFind t k := by
  induction d with
  | nil => rfl
  | cons p s ih =>
      simp only [List.map_cons, List.mem_cons, not_or] at h
      have hp : ¬ p.1 = k := fun hh => h.1 hh.symm
      simp only [List.cons_append, dictFind, if_neg hp]
      exact ih h.2

theorem ieeeEq_nan_right (v : FVal) : FVal.ieeeEq v .nan = false := by
  cases v <;> rfl

/-- The elementwise comparison of a float table with NaN counts no matches,
whatever the table holds. -/
theorem countEqNan_eq_zero (m : List (List FVal)) : countEqNan m = 0 := by
  unfold countEqNan
  apply List.sum_eq_zero
  intro x hx
  rcases List.mem_map.mp hx with ⟨row, _, rfl⟩
  simp [ieeeEq_nan_right]

/-- The check-and-register loop never raises the `ValueError`, whatever
accumulator it starts from: the NaN test compares with `==` instead of
`np.isnan`. -/
theorem tabulateGo_no_valueError (n : Nat) (tables : List (String × List (List FVal)))
    (ps : List String) :
    ∀ (acc : List (String × Nat × Nat × List FVal)) (m : String),
      tabulateGo n tables acc ps ≠ .error (.valueError m) := by
  induction ps with
  | nil =>
      intro acc m
      simp [tabulateGo]
  | cons p rest ih =>
      intro acc m
      unfold tabulateGo
      cases hf : dictFind tables p with
      | none => simp [exc_bind_error]
      | some tbl => simp [exc_bind_ok, countEqNan_eq_zero, ih]

/-- The NaN check of `_customSmogForce_nb` can never raise: the value-error
branch of `tabulateLoop` is unreachable. -/
theorem tabulateLoop_no_valueError (n : Nat) (tables : List (String × List (List FVal)))
    (ps : List String) (m : String) :
    tabulateLoop n tables ps ≠ .error (.valueError m) := by
  unfold tabulateLoop
  exact tabulateGo_no_valueError n tables ps [] m

theorem mapM_ok_length (f : α → Exc β) (l : List α) :
    ∀ r : List β, l.mapM f = .ok r → r.length = l.length := by
  induction l with
  | nil =>
      intro r h
      rw [List.mapM_nil] at h
      cases h
      rfl
  | cons a t ih =>
      intro r h
      rw [List.mapM_cons] at h
      rcases (exc_bind_ok_iff _ _ _).mp h with ⟨b, _, h2⟩
      rcases (exc_bind_ok_iff _ _ _).mp h2 with ⟨bs, hbs, h3⟩
      cases h3
      simp [ih bs hbs]

theorem addBondLoop_cons (pars : List String) (f : CustomBondForce) (it : Attrs)
    (rest : List Attrs) :
    addBondLoop pars f (it :: rest) =
      (claimBond pars it) >>=
        (fun b => addBondLoop pars { f with bonds := f.bonds ++ [b] } rest) := by
  conv_lhs => rw [addBondLoop]
  unfold claimBond
  cases getItem it "i" with
  | error e => rfl
  | ok si =>
      simp only [exc_bind_ok]
      cases pyInt si with
      | error e => rfl
      | ok i =>
          simp only [exc_bind_ok]
          cases getItem it "j" with
          | error e => rfl
          | ok sj =>
              simp only [exc_bind_ok]
              cases pyInt sj with
              | error e => rfl
              | ok j =>
                  simp only [exc_bind_ok]
                  cases pars.mapM (fun k => do
                      let v ← getItem it k
                      pyFloat v) with
                  | error e => rfl
                  | ok vs => rfl

/-- The imperative `addBond` loop agrees with the claim-side per-interaction
description `claimBond`. -/
theorem addBondLoop_eq (pars : List String) (xs : List Attrs) :
    ∀ f : CustomBondForce,
      addBondLoop pars f xs =
        (xs.mapM (claimBond pars)) >>=
          (fun bs => pure { f with bonds := f.bonds ++ bs }) := by
  induction xs with
  | nil =>
      intro f
      rw [List.mapM_nil, addBondLoop]
      simp only [pure_bind, List.append_nil]
      rfl
  | cons it rest ih =>
      intro f
      rw [addBondLoop_cons, List.mapM_cons]
      cases claimBond pars it with
      | error e => rfl
      | ok b =>
          rw [exc_bind_ok, ih]
          cases rest.mapM (claimBond pars) with
          | error e => rfl
          | ok bs => simp [exc_bind_ok, List.append_assoc]

theorem perBondFold_eq (ps : List String) :
    ∀ f : CustomBondForce,
      ps.foldl (fun f p => { f with perBondParams := f.perBondParams ++ [p] }) f =
        { f with perBondParams := f.perBondParams ++ ps } := by
  induction ps with
  | nil =>
      intro f
      simp
  | cons p rest ih =>
      intro f
      rw [List.foldl_cons, ih]
      simp

theorem globalsFold_eq (cs : List (String × ℚ)) :
    ∀ f : CustomBondForce,
      cs.foldl (fun f c => { f with globalParams := f.globalParams ++ [c] }) f =
        { f with globalParams := f.globalParams ++ cs } := by
  induction cs with
  | nil =>
      intro f
      simp
  | cons c rest ih =>
      intro f
      rw [List.foldl_cons, ih]
      simp

/-- Success inversion for `_customSmogForce`: the resulting state stores,
under the given name, a bond force whose fields come from the record, with
force group `st.forceCount`, and increments the counter. -/
theorem customSmogForce_ok (st : SBMSt) (nm : String) (r : ContactForceRec) (st' : SBMSt)
    (h : customSmogForce st nm r = .ok st') :
    ∃ (bs : List (Int × Int × List ℚ)) (cs : List (String × ℚ)),
      r.pairs.mapM (claimBond r.parameters) = .ok bs ∧
      constantsBlock st = .ok cs ∧
      st' = { st with
        forcesDict := dictInsert st.forcesDict nm
          ⟨.smogBond ⟨r.expression, r.parameters, bs, cs⟩, st.forceCount⟩
        forceCount := st.forceCount + 1 } := by
  unfold customSmogForce at h
  simp only [perBondFold_eq, List.map_id', addBondLoop_eq] at h
  rcases (exc_bind_ok_iff _ _ _).mp h with ⟨ff2a, h1, h2⟩
  rcases (exc_bind_ok_iff _ _ _).mp h1 with ⟨bs, hbs, h1b⟩
  cases h1b
  rcases (exc_bind_ok_iff _ _ _).mp h2 with ⟨cs, hcs, h3⟩
  rw [globalsFold_eq] at h3
  cases h3
  exact ⟨bs, cs, hbs, hcs, by simp⟩

/-- C1: `_customSmogForce` on a record `(e, ps, xs)` creates a custom bond
force with energy expression `e`, registers the names of `ps` as per-bond
parameters in list order, and adds exactly one bond per element of `xs`
whose particle indices are the element's `i` and `j` attributes each
decreased by one and whose parameter values are the element's attributes
read in the order of `ps`, converted to floats. -/
theorem claim_C1 (st : SBMSt) (name e : String) (ps : List String) (xs : List Attrs)
    (st' : SBMSt)
    (h : customSmogForce st name ⟨e, ps, xs⟩ = .ok st') :
    ∃ (cb : CustomBondForce) (bs : List (Int × Int × List ℚ)),
      dictFind st'.forcesDict name = some ⟨.smogBond cb, st.forceCount⟩ ∧
      cb.energy = e ∧
      cb.perBondParams = ps ∧
      xs.mapM (claimBond ps) = .ok bs ∧
      cb.bonds = bs ∧
      bs.length = xs.length ∧
      st'.forceCount = st.forceCount + 1 := by
  obtain ⟨bs, cs, hbs, hcs, rfl⟩ := customSmogForce_ok st name ⟨e, ps, xs⟩ st' h
  exact ⟨⟨e, ps, bs, cs⟩, bs, dictFind_insert_self _ _ _, rfl, rfl, hbs, rfl,
    mapM_ok_length _ _ _ hbs, rfl⟩

theorem claim_C1_witness :
    ∃ (cb : CustomBondForce) (bs : List (Int × Int × List ℚ)),
      dictFind c1res.forcesDict "c1" = some ⟨.smogBond cb, c1st.forceCount⟩ ∧
      cb.energy = "eps*r" ∧
      cb.perBondParams = ["eps"] ∧
      [[("i", "1"), ("j", "2"), ("eps", "2")]].mapM (claimBond ["eps"]) = .ok bs ∧
      cb.bonds = bs ∧
      bs.length = [[("i", "1"), ("j", "2"), ("eps", "2")]].length ∧
      c1res.forceCount = c1st.forceCount + 1 :=
  claim_C1 c1st "c1" "eps*r" ["eps"] [[("i", "1"), ("j", "2"), ("eps", "2")]] c1res
    (by decide)

theorem nodup_get_notin_take {l : List α} (hn : l.Nodup) {s : Nat} {a : α}
    (h : l.get? s = some a) : a ∉ l.take s := by
  intro hmem
  have hlt : s < l.length := by
    by_contra hge
    rw [List.get?_eq_none.mpr (Nat.le_of_not_lt hge)] at h
    cases h
  have hd : l.drop s = a :: l.drop (s + 1) := by
    rw [List.drop_eq_getElem_cons hlt]
    rw [List.get?_eq_getElem?] at h
    rw [List.getElem?_eq_getElem hlt] at h
    cases h
    rfl
  have hsplit : l = l.take s ++ l.drop s := (List.take_append_drop s l).symm
  rw [hsplit] at hn
  rw [List.nodup_append] at hn
  exact hn.2.2 hmem (by rw [hd]; exact List.mem_cons_self a _)

/-- `customSmogForce` leaves the system untouched. -/
theorem customSmogForce_sys (st : SBMSt) (nm : String) (r : ContactForceRec) (st' : SBMSt)
    (h : customSmogForce st nm r = .ok st') : st'.system = st.system := by
  obtain ⟨bs, cs, _, _, rfl⟩ := customSmogForce_ok st nm r st' h
  rfl

/-- Each successful iteration of the contacts loop of `loadXml` adds exactly
one force to the system. -/
theorem applyContactForces_count (l : List (String × ContactForceRec)) :
    ∀ st st', applyContactForces st l = (st', none) →
      st'.system.forces.length = st.system.forces.length + l.length := by
  induction l with
  | nil =>
      intro st st' h
      unfold applyContactForces at h
      cases h
      simp
  | cons p rest ih =>
      obtain ⟨nm, r⟩ := p
      intro st st' h
      unfold applyContactForces at h
      cases hc : customSmogForce st nm r with
      | error e =>
          rw [hc] at h
          simp [Prod.ext_iff] at h
      | ok st1 =>
          rw [hc] at h
          dsimp only at h
          cases hf : dictFind st1.forcesDict nm with
          | none =>
              rw [hf] at h
              simp [Prod.ext_iff] at h
          | some f =>
              rw [hf] at h
              have hrec := ih _ _ h
              have hsys := customSmogForce_sys st nm r st1 hc
              rw [hrec]
              simp [addForce, hsys]
              omega

/-- The invariant-carrying induction behind C7: folding the split loop over
the index range `[s, s + m)` extends the dict by one fresh entry per index
and preserves earlier entries. -/
theorem splitContactsGo (cd : ContactData) (hn : cd.forceNames.Nodup) :
    ∀ (m s : Nat), s + m = cd.forceNames.length →
    ∀ (d0 d : List (String × ContactForceRec)),
      d0.map Prod.fst = cd.forceNames.take s →
      (List.range' s m).foldlM
        (fun d n => do
          let nm ← listIndex cd.forceNames n
          let e ← listIndex cd.expressions n
          let p ← listIndex cd.parameters n
          let q ← listIndex cd.pairs n
          pure (dictInsert d nm ⟨e, p, q⟩)) d0 = .ok d →
      d.map Prod.fst = cd.forceNames ∧
      (∀ k nm, s ≤ k → cd.forceNames.get? k = some nm →
        ∃ e p q, cd.expressions.get? k = some e ∧ cd.parameters.get? k = some p ∧
          cd.pairs.get? k = some q ∧ dictFind d nm = some ⟨e, p, q⟩) ∧
      (∀ key v, dictFind d0 key = some v → dictFind d key = some v) := by
  intro m
  induction m with
  | zero =>
      intro s hs d0 d hd0 h
      have hr : List.range' s 0 = [] := rfl
      rw [hr, List.foldlM_nil] at h
      cases h
      have hsl : s = cd.forceNames.length := by omega
      subst hsl
      refine ⟨by rw [hd0, List.take_length], ?_, fun key v hv => hv⟩
      intro k nm hk hget
      exfalso
      rw [List.get?_eq_none.mpr (by omega)] at hget
      cases hget
  | succ m ih =>
      intro s hs d0 d hd0 h
      rw [List.range'_succ, List.foldlM_cons] at h
      rcases (exc_bind_ok_iff _ _ _).mp h with ⟨d1, hstep, hrest⟩
      rcases (exc_bind_ok_iff _ _ _).mp hstep with ⟨nm, hnm, hstep⟩
      rcases (exc_bind_ok_iff _ _ _).mp hstep with ⟨e, he, hstep⟩
      rcases (exc_bind_ok_iff _ _ _).mp hstep with ⟨p, hp, hstep⟩
      rcases (exc_bind_ok_iff _ _ _).mp hstep with ⟨q, hq, hstep⟩
      cases hstep
      have hnm' := listIndex_ok hnm
      have hfresh : nm ∉ d0.map Prod.fst := by
        rw [hd0]
        exact nodup_get_notin_take hn hnm'
      rw [dictInsert_fresh _ _ _ hfresh] at hrest
      have hd1 : (d0 ++ [(nm, (⟨e, p, q⟩ : ContactForceRec))]).map Prod.fst =
          cd.forceNames.take (s + 1) := by
        rw [List.map_append, hd0, List.take_succ, ← List.get?_eq_getElem?, hnm']
        rfl
      obtain ⟨c1, c2, c3⟩ := ih (s + 1) (by omega) _ d hd1 hrest
      refine ⟨c1, ?_, ?_⟩
      · intro k nmk hk hgetk
        rcases Nat.eq_or_lt_of_le hk with rfl | hk'
        · rw [hnm'] at hgetk
          cases hgetk
          refine ⟨e, p, q, listIndex_ok he, listIndex_ok hp, listIndex_ok hq, ?_⟩
          apply c3
          rw [dictFind_append_right _ _ _ hfresh]
          simp [dictFind]
        · exact c2 k nmk hk' hgetk
      · intro key v hv
        exact c3 key v (dictFind_append_left _ _ _ _ hv)

/-- C7: `_splitForces_contacts` maps each force name to the triple
`[expression, parameters, interactions]` at the same index; with pairwise
distinct names the dict has exactly one entry per record, and the contacts
loop of `loadXml` then adds exactly one custom force to the system per
entry. -/
theorem claim_C7 (cd : ContactData) (d : List (String × ContactForceRec))
    (hn : cd.forceNames.Nodup)
    (hsplit : splitForces_contacts cd = .ok d) :
    d.length = cd.forceNames.length ∧
    (∀ k nm, cd.forceNames.get? k = some nm →
      ∃ e p q, cd.expressions.get? k = some e ∧ cd.parameters.get? k = some p ∧
        cd.pairs.get? k = some q ∧ dictFind d nm = some ⟨e, p, q⟩) ∧
    (∀ st st', applyContactForces st d = (st', none) →
      st'.system.forces.length = st.system.forces.length + d.length) := by
  unfold splitForces_contacts at hsplit
  rw [List.range_eq_range'] at hsplit
  obtain ⟨c1, c2, _⟩ :=
    splitContactsGo cd hn cd.forceNames.length 0 (by omega) [] d rfl hsplit
  refine ⟨?_, ?_, applyContactForces_count d⟩
  · rw [← c1]
    simp
  · intro k nm h
    exact c2 k nm (Nat.zero_le k) h

theorem claim_C7_witness :
    ([("f1", (⟨"e1", ["a"], [[("i", "1"), ("j", "2"), ("a", "1")]]⟩ : ContactForceRec)),
      ("f2", ⟨"e2", ["b", "c"], []⟩)].length = c7cd.forceNames.length) ∧
    (∀ k nm, c7cd.forceNames.get? k = some nm →
      ∃ e p q, c7cd.expressions.get? k = some e ∧ c7cd.parameters.get? k = some p ∧
        c7cd.pairs.get? k = some q ∧
        dictFind [("f1", (⟨"e1", ["a"], [[("i", "1"), ("j", "2"), ("a", "1")]]⟩ : ContactForceRec)),
          ("f2", ⟨"e2", ["b", "c"], []⟩)] nm = some ⟨e, p, q⟩) ∧
    (∀ st st', applyContactForces st
        [("f1", (⟨"e1", ["a"], [[("i", "1"), ("j", "2"), ("a", "1")]]⟩ : ContactForceRec)),
         ("f2", ⟨"e2", ["b", "c"], []⟩)] = (st', none) →
      st'.system.forces.length = st.system.forces.length +
        [("f1", (⟨"e1", ["a"], [[("i", "1"), ("j", "2"), ("a", "1")]]⟩ : ContactForceRec)),
         ("f2", ⟨"e2", ["b", "c"], []⟩)].length) :=
  claim_C7 c7cd
    [("f1", ⟨"e1", ["a"], [[("i", "1"), ("j", "2"), ("a", "1")]]⟩),
     ("f2", ⟨"e2", ["b", "c"], []⟩)]
    (by decide) (by decide)

/-- C8: once `loadXml` has applied the forces (`forceApplied = true`) a
further call returns the state unchanged, and once `createSimulation` has
run (`loaded = true`) a further call returns the state unchanged. -/
theorem claim_C8 (v : XElem → Bool) (root : XElem) (st : SBMSt)
    (hf : st.forceApplied = true) (hl : st.loaded = true) :
    loadXml v root st = (st, none) ∧ createSimulation st = st := by
  constructor
  · unfold loadXml
    rw [hf]
    simp
  · unfold createSimulation
    rw [hl]
    simp

theorem claim_C8_witness :
    loadXml (fun _ => true) c4root c8st = (c8st, none) ∧
    createSimulation c8st = c8st :=
  claim_C8 (fun _ => true) c4root c8st rfl rfl

/-- C6: `_check_file` raises a `ValueError` exactly when the file name does
not end, case-insensitively, with the required extension; and in
`loadSystem` a failing topology extension check happens after the
coordinate file was loaded and before the XML file is touched. -/
theorem claim_C6 :
    (∀ f ext : String, strLower ext = ext →
      ((∃ m, check_file f ext = .error (.valueError m)) ↔
        listEndsWith (strLower f).data (strLower ext).data = false)) ∧
    (∀ gro top xml : String, ∀ e : PyError,
      check_file gro ".gro" = .ok () → check_file top ".top" = .error e →
      loadSystem gro top xml = ([.loadGro], some e)) := by
  constructor
  · intro f ext hext
    rw [hext]
    unfold check_file
    by_cases h : listEndsWith (strLower f).data ext.data
    · simp [h]
    · simp [h]
  · intro gro top xml e h1 h2
    unfold loadSystem
    rw [h1, h2]

theorem claim_C6_witness :
    ((∃ m, check_file "protein.GRO" ".gro" = .error (.valueError m)) ↔
      listEndsWith (strLower "protein.GRO").data (strLower ".gro").data = false) ∧
    loadSystem "a.gro" "b.tip" "c.xml" =
      ([.loadGro], some (.valueError
        "Wrong file extension: b.tip must to be .top extension")) :=
  ⟨claim_C6.1 "protein.GRO" ".gro" (by decide),
   claim_C6.2 "a.gro" "b.tip" "c.xml"
     (.valueError "Wrong file extension: b.tip must to be .top extension")
     (by decide) (by decide)⟩

theorem char_toNat_inj {a b : Char} (h : a.toNat = b.toNat) : a = b :=
  Char.eq_of_val_eq (UInt32.eq_of_toBitVec_eq (BitVec.eq_of_toNat_eq h))

theorem str_eq_of_data_eq {a b : String} (h : a.data = b.data) : a = b :=
  congrArg String.mk h

theorem strLtB_irrefl (s : List Char) : strLtB s s = false := by
  induction s with
  | nil => rfl
  | cons a t ih => simp [strLtB, ih]

theorem strLtB_trans {s t u : List Char} (h1 : strLtB s t = true)
    (h2 : strLtB t u = true) : strLtB s u = true := by
  induction s generalizing t u with
  | nil =>
      cases t with
      | nil => simp [strLtB] at h1
      | cons b t' =>
          cases u with
          | nil => simp [strLtB] at h2
          | cons c u' => rfl
  | cons a s' ih =>
      cases t with
      | nil => simp [strLtB] at h1
      | cons b t' =>
          cases u with
          | nil => simp [strLtB] at h2
          | cons c u' =>
              simp only [strLtB] at h1 h2 ⊢
              by_cases hab : a.toNat < b.toNat
              · rw [if_pos hab] at h1
                by_cases hbc : b.toNat < c.toNat
                · rw [if_pos (show a.toNat < c.toNat by omega)]
                · rw [if_neg hbc] at h2
                  by_cases hcb : c.toNat < b.toNat
                  · rw [if_pos hcb] at h2
                    exact absurd h2 (by simp)
                  · rw [if_neg hcb] at h2
                    rw [if_pos (show a.toNat < c.toNat by omega)]
              · rw [if_neg hab] at h1
                by_cases hba : b.toNat < a.toNat
                · rw [if_pos hba] at h1
                  exact absurd h1 (by simp)
                · rw [if_neg hba] at h1
                  by_cases hbc : b.toNat < c.toNat
                  · rw [if_pos (show a.toNat < c.toNat by omega)]
                  · rw [if_neg hbc] at h2
                    by_cases hcb : c.toNat < b.toNat
                    · rw [if_pos hcb] at h2
                      exact absurd h2 (by simp)
                    · rw [if_neg hcb] at h2
                      rw [if_neg (show ¬ a.toNat < c.toNat by omega),
                          if_neg (show ¬ c.toNat < a.toNat by omega)]
                      exact ih h1 h2

theorem strLtB_connex {s t : List Char} (h1 : strLtB s t = false) (h2 : s ≠ t) :
    strLtB t s = true := by
  induction s generalizing t with
  | nil =>
      cases t with
      | nil => exact absurd rfl h2
      | cons b t' => simp [strLtB] at h1
  | cons a s' ih =>
      cases t with
      | nil => rfl
      | cons b t' =>
          simp only [strLtB] at h1 ⊢
          by_cases hab : a.toNat < b.toNat
          · simp [hab] at h1
          · by_cases hba : b.toNat < a.toNat
            · simp [hba]
            · have hab' : a = b := char_toNat_inj (by omega)
              simp only [if_neg hab, if_neg hba] at h1
              simp only [if_neg hba, if_neg hab]
              apply ih h1
              intro hst
              exact h2 (by rw [hab', hst])

theorem strLt_trans {a b c : String} (h1 : strLt a b = true) (h2 : strLt b c = true) :
    strLt a c = true := strLtB_trans h1 h2

theorem strLt_connex {a b : String} (h1 : ¬ strLt a b = true) (h2 : ¬ a = b) :
    strLt b a = true := by
  apply strLtB_connex (Bool.eq_false_iff.mpr h1)
  intro hd
  exact h2 (str_eq_of_data_eq hd)

theorem strLt_irrefl (a : String) : strLt a a = false := strLtB_irrefl a.data

theorem mem_insertSorted {x a : String} : ∀ {l : List String},
    a ∈ insertSorted x l ↔ a = x ∨ a ∈ l := by
  intro l
  induction l with
  | nil => simp [insertSorted]
  | cons y t ih =>
      by_cases h1 : strLt x y = true
      · simp only [insertSorted, if_pos h1, List.mem_cons]
      · by_cases h2 : x = y
        · subst h2
          have he : insertSorted x (x :: t) = x :: t := by
            unfold insertSorted
            rw [if_neg h1, if_pos rfl]
          rw [he]
          simp only [List.mem_cons]
          tauto
        · simp only [insertSorted, if_neg h1, if_neg h2, List.mem_cons, ih]
          tauto

theorem sorted_insertSorted {x : String} : ∀ {l : List String},
    l.Pairwise (fun a b => strLt a b = true) →
    (insertSorted x l).Pairwise (fun a b => strLt a b = true) := by
  intro l
  induction l with
  | nil =>
      intro _
      simp [insertSorted]
  | cons y t ih =>
      intro hs
      rw [List.pairwise_cons] at hs
      obtain ⟨hy, ht⟩ := hs
      by_cases h1 : strLt x y = true
      · simp only [insertSorted, if_pos h1]
        rw [List.pairwise_cons]
        refine ⟨?_, List.pairwise_cons.mpr ⟨hy, ht⟩⟩
        intro b hb
        rcases List.mem_cons.mp hb with rfl | hb
        · exact h1
        · exact strLt_trans h1 (hy b hb)
      · by_cases h2 : x = y
        · simp only [insertSorted, if_neg h1, if_pos h2]
          exact List.pairwise_cons.mpr ⟨hy, ht⟩
        · simp only [insertSorted, if_neg h1, if_neg h2]
          rw [List.pairwise_cons]
          refine ⟨?_, ih ht⟩
          intro b hb
          rcases mem_insertSorted.mp hb with rfl | hb
          · exact strLt_connex h1 h2
          · exact hy b hb

theorem nodup_of_strSorted {l : List String}
    (h : l.Pairwise (fun a b => strLt a b = true)) : l.Nodup := by
  apply h.imp
  intro a b hab hEq
  subst hEq
  rw [strLt_irrefl] at hab
  cases hab

theorem npUnique_go (l : List String) :
    ∀ acc : List String, acc.Pairwise (fun a b => strLt a b = true) →
      ((l.foldl (fun a x => insertSorted x a) acc).Pairwise
          (fun a b => strLt a b = true) ∧
       ∀ y, y ∈ l.foldl (fun a x => insertSorted x a) acc ↔ y ∈ acc ∨ y ∈ l) := by
  induction l with
  | nil =>
      intro acc h
      refine ⟨h, fun y => ?_⟩
      simp
  | cons x t ih =>
      intro acc h
      rw [List.foldl_cons]
      obtain ⟨hs, hm⟩ := ih (insertSorted x acc) (sorted_insertSorted h)
      refine ⟨hs, fun y => ?_⟩
      rw [hm y, mem_insertSorted]
      simp only [List.mem_cons]
      tauto

/-- `np.unique` yields a duplicate-free list. -/
theorem npUnique_nodup (l : List String) : (npUnique l).Nodup :=
  nodup_of_strSorted (npUnique_go l [] (by simp)).1

/-- `np.unique` keeps exactly the values of its input. -/
theorem mem_npUnique (l : List String) (y : String) : y ∈ npUnique l ↔ y ∈ l := by
  have h := (npUnique_go l [] (by simp)).2 y
  rw [npUnique]
  rw [h]
  simp

theorem isOk_exists {e : Exc α} (h : e.isOk = true) : ∃ a, e = .ok a := by
  cases e with
  | error x => cases h
  | ok a => exact ⟨a, rfl⟩

theorem mapM_ok_of_forall (f : α → Exc β) (l : List α)
    (h : ∀ a ∈ l, ∃ b, f a = .ok b) : ∃ r, l.mapM f = .ok r := by
  induction l with
  | nil =>
      refine ⟨[], ?_⟩
      rw [List.mapM_nil]
      rfl
  | cons a t ih =>
      obtain ⟨b, hb⟩ := h a (List.mem_cons_self _ _)
      obtain ⟨r, hr⟩ := ih (fun x hx => h x (List.mem_cons_of_mem _ hx))
      refine ⟨b :: r, ?_⟩
      rw [List.mapM_cons, hb, exc_bind_ok, hr, exc_bind_ok]
      rfl

theorem foldlM_ok_of_forall (b : β → α → Exc β) (l : List α)
    (h : ∀ a ∈ l, ∀ acc, ∃ acc', b acc a = .ok acc') :
    ∀ acc, ∃ r, l.foldlM b acc = .ok r := by
  induction l with
  | nil =>
      intro acc
      refine ⟨acc, ?_⟩
      rw [List.foldlM_nil]
      rfl
  | cons a t ih =>
      intro acc
      obtain ⟨acc', hb⟩ := h a (List.mem_cons_self _ _) acc
      obtain ⟨r, hr⟩ := ih (fun x hx acc => h x (List.mem_cons_of_mem _ hx) acc) acc'
      refine ⟨r, ?_⟩
      rw [List.foldlM_cons, hb, exc_bind_ok, hr]

/-- Under the schema guarantees, the constants loop of
`import_xml2OpenSMOG` succeeds. -/
theorem constantsFold_ok (ce : XElem)
    (hok : ∀ c ∈ ce.iterTag "constant",
      ((getItem c.attrs "name").isOk &&
        (match getItem c.attrs "value" with
         | .ok v => (pyFloat v).isOk
         | .error _ => false)) = true) :
    ∃ cs, (ce.iterTag "constant").foldlM
      (fun d c => do
        let nm ← getItem c.attrs "name"
        let v ← getItem c.attrs "value"
        let q ← pyFloat v
        pure (dictInsert d nm q)) ([] : List (String × ℚ)) = .ok cs := by
  apply foldlM_ok_of_forall
  intro c hc acc
  have hok' := hok c hc
  rw [Bool.and_eq_true] at hok'
  obtain ⟨h1, h2⟩ := hok'
  obtain ⟨nm, hnm⟩ := isOk_exists h1
  cases hv : getItem c.attrs "value" with
  | error e => rw [hv] at h2; cases h2
  | ok v =>
      rw [hv] at h2
      obtain ⟨q, hq⟩ := isOk_exists h2
      refine ⟨dictInsert acc nm q, ?_⟩
      rw [hnm, exc_bind_ok, exc_bind_ok, hq, exc_bind_ok]
      rfl

/-- Under the schema guarantees, one iteration of the contacts loop
succeeds. -/
theorem processContactChild_ok (c : XElem)
    (h1 : ∀ n ∈ c.iterTag "contacts_type", (getItem n.attrs "name").isOk = true)
    (h2 : ∀ x ∈ c.iterTag "expression", (getItem x.attrs "expr").isOk = true) :
    ∃ r, processContactChild c = .ok r := by
  obtain ⟨names, hnames⟩ := mapM_ok_of_forall _ _ (fun n hn => isOk_exists (h1 n hn))
  obtain ⟨exprs, hexprs⟩ := mapM_ok_of_forall _ _ (fun x hx => isOk_exists (h2 x hx))
  refine ⟨(names, exprs, (c.iterTag "parameter").map (fun p => p.text),
    (c.iterTag "interaction").map (fun a => a.attrs)), ?_⟩
  unfold processContactChild
  rw [hnames, exc_bind_ok, hexprs, exc_bind_ok]
  rfl

/-- Under the schema guarantees, the whole contacts loop succeeds. -/
theorem contactsFold_ok (children : List XElem)
    (h : ∀ c ∈ children,
      (((c.iterTag "contacts_type").all (fun n => (getItem n.attrs "name").isOk)) &&
       ((c.iterTag "expression").all (fun x => (getItem x.attrs "expr").isOk))) = true) :
    ∃ cd, contactsFold children = .ok cd := by
  apply foldlM_ok_of_forall
  intro c hc acc
  have h' := h c hc
  rw [Bool.and_eq_true] at h'
  obtain ⟨ha, hb⟩ := h'
  obtain ⟨r, hr⟩ := processContactChild_ok c
    (fun n hn => List.all_eq_true.mp ha n hn)
    (fun x hx => List.all_eq_true.mp hb x hx)
  obtain ⟨names, exprs, pars, prs⟩ := r
  refine ⟨⟨acc.expressions ++ exprs, acc.parameters ++ [pars],
    acc.pairs ++ [prs], acc.forceNames ++ names⟩, ?_⟩
  rw [hr, exc_bind_ok]
  rfl

/-- With a schema-valid document lacking a contacts element,
`import_xml2OpenSMOG` raises the no-contacts `ValueError`; the
`nonbond_present` value comes back unchanged, while `constants_present`
has been set to `True` exactly when a constants section is present (the
write happens before the raise and survives it). -/
theorem import_no_contacts (pbc : Bool) (cp nbp : Option Bool) (root : XElem)
    (hs : schemaBasicOK root = true) (hc : root.findTag "contacts" = none) :
    (import_xml2OpenSMOG pbc cp nbp root).2 =
      .error (.valueError "No contacts were found in the XML file") ∧
    (import_xml2OpenSMOG pbc cp nbp root).1.2 = nbp ∧
    (root.findTag "constants" = none →
      (import_xml2OpenSMOG pbc cp nbp root).1.1 = cp) ∧
    (root.findTag "constants" ≠ none →
      (import_xml2OpenSMOG pbc cp nbp root).1.1 = some true) := by
  unfold schemaBasicOK at hs
  rw [Bool.and_eq_true, Bool.and_eq_true] at hs
  obtain ⟨⟨hv, hcs⟩, _⟩ := hs
  obtain ⟨ve, hve⟩ := Option.isSome_iff_exists.mp hv
  unfold import_xml2OpenSMOG
  rw [hve]
  cases hce : root.findTag "constants" with
  | none =>
      rw [hc]
      exact ⟨rfl, rfl, fun _ => rfl, fun hne => absurd rfl hne⟩
  | some ce =>
      rw [hce] at hcs
      simp only at hcs
      obtain ⟨cs, hfold⟩ := constantsFold_ok ce (fun c hcm => List.all_eq_true.mp hcs c hcm)
      dsimp only
      rw [show constantsDict ce = .ok cs from hfold, hc]
      exact ⟨rfl, rfl, fun hn => Option.noConfusion hn, fun _ => rfl⟩

/-- With a schema-valid document holding a nonbond element while periodic
boundary conditions are off, `import_xml2OpenSMOG` raises a `ValueError`
(either the no-contacts error or the PBC error). -/
theorem import_nonbond_pbc_off (cp nbp : Option Bool) (root : XElem)
    (hs : schemaBasicOK root = true)
    (hnb : (root.findTag "nonbond").isSome = true) :
    ∃ msg, (import_xml2OpenSMOG false cp nbp root).2 = .error (.valueError msg) := by
  cases hc : root.findTag "contacts" with
  | none => exact ⟨_, (import_no_contacts false cp nbp root hs hc).1⟩
  | some ce =>
      unfold schemaBasicOK at hs
      rw [Bool.and_eq_true, Bool.and_eq_true] at hs
      obtain ⟨⟨hv, hcs⟩, hcont⟩ := hs
      obtain ⟨ve, hve⟩ := Option.isSome_iff_exists.mp hv
      obtain ⟨ne, hne⟩ := Option.isSome_iff_exists.mp hnb
      rw [hc] at hcont
      obtain ⟨cd, hcd⟩ := contactsFold_ok ce.children
        (fun c hcm => List.all_eq_true.mp hcont c hcm)
      refine ⟨"Nonbonded forces found, but PBC is off", ?_⟩
      unfold import_xml2OpenSMOG
      rw [hve]
      cases hcexl : root.findTag "constants" with
      | none =>
          dsimp only
          rw [hc]
          dsimp only
          rw [hcd]
          dsimp only
          rw [hne]
          rfl
      | some cst =>
          rw [hcexl] at hcs
          simp only at hcs
          obtain ⟨cs, hfold⟩ := constantsFold_ok cst (fun c hcm => List.all_eq_true.mp hcs c hcm)
          dsimp only
          rw [show constantsDict cst = .ok cs from hfold]
          dsimp only
          rw [hc]
          dsimp only
          rw [hcd]
          dsimp only
          rw [hne]
          rfl

/-- C5: `loadXml` adds forces only for schema-valid documents that hold a
contacts section: (1) a validation failure raises a `ValueError` with the
state fully untouched; (2) for a valid document with no contacts element
the no-contacts `ValueError` is raised before any force is created or
added -- the system, the force dict and the force-group counter are
untouched -- while the `self.constants_present = True` write the code
performs before the raise is kept exactly when a constants section is
present; (3) for a valid document holding a nonbond element while periodic
boundary conditions are off, a `ValueError` is raised with the system, the
force dict and the counter untouched. -/
theorem claim_C5 (v : XElem → Bool) (root : XElem) (st : SBMSt)
    (hfa : st.forceApplied = false) :
    (v root = false →
      loadXml v root st =
        (st, some (.valueError "The xml file is not in the correct format"))) ∧
    (v root = true → schemaBasicOK root = true → root.findTag "contacts" = none →
      (loadXml v root st).2 =
        some (.valueError "No contacts were found in the XML file") ∧
      (loadXml v root st).1.system = st.system ∧
      (loadXml v root st).1.forcesDict = st.forcesDict ∧
      (loadXml v root st).1.forceCount = st.forceCount ∧
      (root.findTag "constants" = none →
        (loadXml v root st).1.constants_present = st.constants_present) ∧
      (root.findTag "constants" ≠ none →
        (loadXml v root st).1.constants_present = some true)) ∧
    (v root = true → schemaBasicOK root = true → st.pbc = false →
      (root.findTag "nonbond").isSome = true →
      ∃ msg, (loadXml v root st).2 = some (.valueError msg) ∧
        (loadXml v root st).1.system = st.system ∧
        (loadXml v root st).1.forcesDict = st.forcesDict ∧
        (loadXml v root st).1.forceCount = st.forceCount) := by
  refine ⟨?_, ?_, ?_⟩
  · intro hv
    unfold loadXml
    rw [hfa, hv]
    rfl
  · intro hv hs hc
    have hic := import_no_contacts st.pbc st.constants_present st.nonbond_present root hs hc
    unfold loadXml
    rw [hfa, hv]
    cases himp : import_xml2OpenSMOG st.pbc st.constants_present st.nonbond_present root with
    | mk p r =>
        obtain ⟨cp, nbp⟩ := p
        rw [himp] at hic
        obtain ⟨herr, hnbp, hcn, hcs2⟩ := hic
        dsimp only at herr hnbp hcn hcs2
        subst herr
        exact ⟨rfl, rfl, rfl, rfl, fun hn => hcn hn, fun hn => hcs2 hn⟩
  · intro hv hs hpbc hnb
    obtain ⟨msg, himpe⟩ := import_nonbond_pbc_off st.constants_present st.nonbond_present
      root hs hnb
    unfold loadXml
    rw [hfa, hv, hpbc]
    cases himp : import_xml2OpenSMOG false st.constants_present st.nonbond_present root with
    | mk p r =>
        obtain ⟨cp, nbp⟩ := p
        rw [himp] at himpe
        dsimp only at himpe
        subst himpe
        exact ⟨msg, rfl, rfl, rfl, rfl⟩

theorem claim_C5_witness :
    ((loadXml (fun _ => true) c5root (initSt true 3)).2 =
        some (.valueError "No contacts were found in the XML file") ∧
      (loadXml (fun _ => true) c5root (initSt true 3)).1.system = (initSt true 3).system ∧
      (loadXml (fun _ => true) c5root (initSt true 3)).1.forcesDict =
        (initSt true 3).forcesDict ∧
      (loadXml (fun _ => true) c5root (initSt true 3)).1.forceCount =
        (initSt true 3).forceCount ∧
      (c5root.findTag "constants" = none →
        (loadXml (fun _ => true) c5root (initSt true 3)).1.constants_present =
          (initSt true 3).constants_present) ∧
      (c5root.findTag "constants" ≠ none →
        (loadXml (fun _ => true) c5root (initSt true 3)).1.constants_present =
          some true)) ∧
    (∃ msg,
      (loadXml (fun _ => true) c10root (initSt false 3)).2 = some (.valueError msg) ∧
      (loadXml (fun _ => true) c10root (initSt false 3)).1.system =
        (initSt false 3).system ∧
      (loadXml (fun _ => true) c10root (initSt false 3)).1.forcesDict =
        (initSt false 3).forcesDict ∧
      (loadXml (fun _ => true) c10root (initSt false 3)).1.forceCount =
        (initSt false 3).forceCount) :=
  ⟨(claim_C5 (fun _ => true) c5root (initSt true 3) rfl).2.1 rfl (by decide) rfl,
   (claim_C5 (fun _ => true) c10root (initSt false 3) rfl).2.2 rfl (by decide) rfl (by decide)⟩

/-- C4 (refuted at this input): on a schema-valid document that has a
contacts section but no constants section, `loadXml` raises
`AttributeError` (reading the never-initialized `self.constants_present`
inside `_customSmogForce`), not a `ValueError` and not nothing. -/
theorem claim_C4 :
    (loadXml (fun _ => true) c4root (initSt true 3)).2 =
      some (.attributeError "SBM object has no attribute constants_present") ∧
    schemaBasicOK c4root = true ∧
    (c4root.findTag "contacts").isSome = true ∧
    c4root.findTag "constants" = none ∧
    c4root.findTag "nonbond" = none := by
  refine ⟨by decide, by decide, by decide, rfl, rfl⟩

/-- C2 (refuted): with parameter `eps` undefined for the type pair `(A,B)`,
`_customSmogForce_nb` raises nothing and registers the tabulated function
with NaN entries, because `np.sum(table == np.nan)` is identically zero
under IEEE comparison; the value-error branch is unreachable for every
table. -/
theorem claim_C2 :
    customSmogForce_nb c2st 0 c2rec =
      ({ c2st with
          atom_types := ["A", "B"]
          forcesDict := [("Nonbonded0", ⟨.smogNB c2nb, 0⟩)]
          forceCount := 1 }, none) ∧
    c2nb.tabulated = [("eps", 2, 2, [.val 1, .nan, .nan, .val 2])] ∧
    (∀ (n : Nat) (tables : List (String × List (List FVal))) (ps : List String)
      (m : String), tabulateLoop n tables ps ≠ .error (.valueError m)) := by
  refine ⟨by decide, rfl, tabulateLoop_no_valueError⟩

/-- A successful element-copy loop `for i in range(n): acc.append(l[i])`
yields the first `n` elements. -/
theorem mapM_range_listIndex_ok (l : List α) :
    ∀ (n : Nat) (r : List α),
      (List.range n).mapM (fun i => listIndex l i) = .ok r →
      n ≤ l.length ∧ r = l.take n := by
  intro n
  induction n with
  | zero =>
      intro r h
      rw [List.range_zero, List.mapM_nil] at h
      cases h
      exact ⟨Nat.zero_le _, rfl⟩
  | succ n ih =>
      intro r h
      rw [List.range_succ, List.mapM_append] at h
      rcases (exc_bind_ok_iff _ _ _).mp h with ⟨xs, hxs, h2⟩
      rcases (exc_bind_ok_iff _ _ _).mp h2 with ⟨ys, hys, h3⟩
      cases h3
      rw [List.mapM_cons, List.mapM_nil] at hys
      rcases (exc_bind_ok_iff _ _ _).mp hys with ⟨a, ha, hy2⟩
      rcases (exc_bind_ok_iff _ _ _).mp hy2 with ⟨e, he, hy3⟩
      cases he
      cases hy3
      obtain ⟨hle, rfl⟩ := ih xs hxs
      refine ⟨listIndex_ok_lt ha, ?_⟩
      rw [List.take_succ, ← List.get?_eq_getElem?, listIndex_ok ha]
      rfl

/-- A successful particle loop gives one particle per index, whose charge is
`atom_charges[i]`. -/
theorem particles_mapM_fst (tt ats : List String) (ac : List ℚ) :
    ∀ (n : Nat) (ps : List (ℚ × Nat)),
      (List.range n).mapM (fun i => do
        let t ← listIndex tt i
        let at_type ← npWhere0 ats t
        let charge ← listIndex ac i
        pure (charge, at_type)) = .ok ps →
      n ≤ ac.length ∧ ps.map Prod.fst = ac.take n := by
  intro n
  induction n with
  | zero =>
      intro ps h
      rw [List.range_zero, List.mapM_nil] at h
      cases h
      exact ⟨Nat.zero_le _, rfl⟩
  | succ n ih =>
      intro ps h
      rw [List.range_succ, List.mapM_append] at h
      rcases (exc_bind_ok_iff _ _ _).mp h with ⟨xs, hxs, h2⟩
      rcases (exc_bind_ok_iff _ _ _).mp h2 with ⟨ys, hys, h3⟩
      cases h3
      rw [List.mapM_cons, List.mapM_nil] at hys
      rcases (exc_bind_ok_iff _ _ _).mp hys with ⟨p, hp, hy2⟩
      rcases (exc_bind_ok_iff _ _ _).mp hy2 with ⟨e, he, hy3⟩
      cases he
      cases hy3
      rcases (exc_bind_ok_iff _ _ _).mp hp with ⟨t, ht, hp2⟩
      rcases (exc_bind_ok_iff _ _ _).mp hp2 with ⟨ty, hty, hp3⟩
      rcases (exc_bind_ok_iff _ _ _).mp hp3 with ⟨charge, hch, hp4⟩
      cases hp4
      obtain ⟨hle, hxs'⟩ := ih xs hxs
      refine ⟨listIndex_ok_lt hch, ?_⟩
      rw [List.map_append, hxs', List.take_succ, ← List.get?_eq_getElem?,
        listIndex_ok hch]
      rfl

/-- Success inversion for `nbStage2`: the new state only registers the force
and bumps the counter; the force copies the exclusions of `getForce(1)` and
the charges of `getForce(0)`. -/
theorem nbStage2_ok (st : SBMSt) (nm : Nat) (r : NbForceRec)
    (g : List (String × ℚ)) (f0 f1 : Force) (st' : SBMSt)
    (h : nbStage2 st nm r g f0 f1 = .ok st') :
    ∃ nb : CustomNonbondedForce,
      st' = { st with
        forcesDict := dictInsert st.forcesDict ("Nonbonded" ++ toString nm)
          ⟨.smogNB nb, st.forceCount⟩
        forceCount := st.forceCount + 1 } ∧
      (∃ ex, f1.kind = .engineCustomNB ex ∧ nb.exclusions = ex) ∧
      (∃ ch, f0.kind = .engineNonbonded ch ∧ st.system.numParticles ≤ ch.length ∧
        nb.particles.map Prod.fst = ch.take st.system.numParticles) := by
  unfold nbStage2 at h
  rcases (exc_bind_ok_iff _ _ _).mp h with ⟨tables, hT, h⟩
  rcases (exc_bind_ok_iff _ _ _).mp h with ⟨tabulated, hTab, h⟩
  cases hk1 : f1.kind with
  | engineNonbonded x =>
      rw [hk1] at h; simp only [exc_bind_error] at h; exact Except.noConfusion h
  | enginePlain x =>
      rw [hk1] at h; simp only [exc_bind_error] at h; exact Except.noConfusion h
  | smogBond x =>
      rw [hk1] at h; simp only [exc_bind_error] at h; exact Except.noConfusion h
  | smogNB x =>
      rw [hk1] at h; simp only [exc_bind_error] at h; exact Except.noConfusion h
  | engineCustomNB ex1 =>
  rw [hk1] at h
  simp only [exc_bind_ok] at h
  rcases (exc_bind_ok_iff _ _ _).mp h with ⟨exs, hExs, h⟩
  cases hk0 : f0.kind with
  | engineCustomNB x =>
      rw [hk0] at h; simp only [exc_bind_error] at h; exact Except.noConfusion h
  | enginePlain x =>
      rw [hk0] at h; simp only [exc_bind_error] at h; exact Except.noConfusion h
  | smogBond x =>
      rw [hk0] at h; simp only [exc_bind_error] at h; exact Except.noConfusion h
  | smogNB x =>
      rw [hk0] at h; simp only [exc_bind_error] at h; exact Except.noConfusion h
  | engineNonbonded ch0 =>
  rw [hk0] at h
  simp only [exc_bind_ok] at h
  rcases (exc_bind_ok_iff _ _ _).mp h with ⟨ac, hAc, h⟩
  rcases (exc_bind_ok_iff _ _ _).mp h with ⟨tt, hTT, h⟩
  rcases (exc_bind_ok_iff _ _ _).mp h with ⟨ps, hPs, h⟩
  cases h
  obtain ⟨hexle, hexs⟩ := mapM_range_listIndex_ok ex1 ex1.length exs hExs
  obtain ⟨hacle, hac⟩ := mapM_range_listIndex_ok ch0 st.system.numParticles ac hAc
  obtain ⟨hpsle, hps⟩ := particles_mapM_fst tt st.atom_types ac st.system.numParticles ps hPs
  refine ⟨_, rfl, ⟨ex1, rfl, ?_⟩, ⟨ch0, rfl, hacle, ?_⟩⟩
  · rw [hexs, List.take_length]
  · rw [hps, hac]
    have hlen : ac.length = st.system.numParticles := by
      rw [hac, List.length_take]
      omega
    rw [← hac]
    exact List.take_of_length_le (le_of_eq hlen)

/-- `_customSmogForce_nb` always leaves `self.atom_types` equal to
`np.unique` of the `type1` attributes once the type-collection loop has
run, whether or not a later step raises. -/
theorem customSmogForce_nb_atom_types (st : SBMSt) (nm : Nat) (r : NbForceRec)
    (glob : List (String × ℚ)) (f0 f1 : Force) (t1s : List String)
    (h1 : nbStage1 st = .ok (glob, f0, f1))
    (h2 : r.nbParams.mapM (fun a => getItem a "type1") = .ok t1s) :
    (customSmogForce_nb st nm r).1.atom_types = npUnique t1s := by
  unfold customSmogForce_nb
  rw [h1, h2]
  dsimp only
  cases hs : nbStage2 { st with atom_types := npUnique t1s } nm r glob f0 f1 with
  | error e => rfl
  | ok st' =>
      obtain ⟨nb, rfl, _, _⟩ :=
        nbStage2_ok { st with atom_types := npUnique t1s } nm r glob f0 f1 st' hs
      rfl

/-- C3 (amended): after `_customSmogForce_nb` computes the type index,
`self.atom_types` holds each atom-type label occurring as a `type1`
attribute exactly once, and membership in the index is exactly membership
among the `type1` labels — a label referenced only through a `type2`
attribute does not occur. -/
theorem claim_C3 (st : SBMSt) (nm : Nat) (r : NbForceRec)
    (glob : List (String × ℚ)) (f0 f1 : Force) (t1s : List String)
    (h1 : nbStage1 st = .ok (glob, f0, f1))
    (h2 : r.nbParams.mapM (fun a => getItem a "type1") = .ok t1s) :
    ((customSmogForce_nb st nm r).1.atom_types).Nodup ∧
    (∀ x, x ∈ (customSmogForce_nb st nm r).1.atom_types ↔ x ∈ t1s) := by
  rw [customSmogForce_nb_atom_types st nm r glob f0 f1 t1s h1 h2]
  exact ⟨npUnique_nodup t1s, fun x => mem_npUnique t1s x⟩

theorem claim_C3_witness :
    ((customSmogForce_nb c2st 0 c3rec).1.atom_types).Nodup ∧
    (∀ x, x ∈ (customSmogForce_nb c2st 0 c3rec).1.atom_types ↔ x ∈ ["A"]) :=
  claim_C3 c2st 0 c3rec [("kap", 2), ("r_c", 3)]
    ⟨.engineNonbonded [1, -1], 0⟩ ⟨.engineCustomNB [(0, 1)], 0⟩ ["A"]
    (by decide) (by decide)

/-- C3 (refuted at this input): after `_customSmogForce_nb` processes a
record whose only entry references type `B` as its `type2` attribute, the
type index holds `A` alone, `B` does not occur in it, and resolving the
entry's pair fails with an `IndexError`. -/
theorem claim_C3_counterexample :
    getItem [("type1", "A"), ("type2", "B"), ("eps", "1")] "type2" = .ok "B" ∧
    c3rec.nbParams = [[("type1", "A"), ("type2", "B"), ("eps", "1")]] ∧
    (customSmogForce_nb c2st 0 c3rec).1.atom_types = ["A"] ∧
    "B" ∉ (customSmogForce_nb c2st 0 c3rec).1.atom_types ∧
    (customSmogForce_nb c2st 0 c3rec).2 =
      some (.indexError "index 0 is out of bounds for axis 0 with size 0") := by
  refine ⟨rfl, rfl, by decide, by decide, by decide⟩

theorem regOK_insert (k : String) (f : Force) :
    ∀ (d : List (String × Force)) (c : Nat), RegOK d c → f.group = c →
      RegOK (dictInsert d k f) (c + 1) := by
  intro d
  induction d with
  | nil =>
      intro c _ hf
      constructor
      · simp [dictInsert, GroupsDistinct]
      · intro p hp
        simp only [dictInsert, List.mem_singleton] at hp
        subst hp
        dsimp only
        omega
  | cons p t ih =>
      intro c h hf
      obtain ⟨hdist, hbound⟩ := h
      rw [GroupsDistinct, List.pairwise_cons] at hdist
      obtain ⟨hp, ht⟩ := hdist
      have hbt : ∀ q ∈ t, q.2.group < c :=
        fun q hq => hbound q (List.mem_cons_of_mem _ hq)
      by_cases hk : p.1 = k
      · simp only [dictInsert, if_pos hk]
        constructor
        · rw [GroupsDistinct, List.pairwise_cons]
          refine ⟨fun q hq => ?_, ht⟩
          have := hbt q hq
          simp only [hf]
          omega
        · intro q hq
          rcases List.mem_cons.mp hq with rfl | hq
          · simp only [hf]
            omega
          · have := hbt q hq
            omega
      · simp only [dictInsert, if_neg hk]
        obtain ⟨ihd, ihb⟩ := ih c ⟨ht, hbt⟩ hf
        constructor
        · rw [GroupsDistinct, List.pairwise_cons]
          refine ⟨fun q hq => ?_, ihd⟩
          rcases mem_dictInsert hq with rfl | hq
          · have := hbound p (List.mem_cons_self _ _)
            simp only [hf]
            omega
          · exact hp q hq
        · intro q hq
          rcases List.mem_cons.mp hq with rfl | hq
          · have := hbound q (List.mem_cons_self _ _)
            omega
          · exact ihb q hq

theorem regOK_of_groups_range (d : List (String × Force)) (c : Nat)
    (h : d.map (fun p => p.2.group) = List.range c) : RegOK d c := by
  constructor
  · have hnd : (d.map (fun p => p.2.group)).Nodup := by
      rw [h]
      exact List.nodup_range c
    exact List.pairwise_map.mp hnd
  · intro p hp
    have : p.2.group ∈ List.range c := by
      rw [← h]
      exact List.mem_map_of_mem _ hp
    simpa using this

/-- Success inversion for `nbStage1`: the two fetched forces are the first
two of the system. -/
theorem nbStage1_ok (st : SBMSt) (glob : List (String × ℚ)) (f0 f1 : Force)
    (h : nbStage1 st = .ok (glob, f0, f1)) :
    st.system.forces.get? 0 = some f0 ∧ st.system.forces.get? 1 = some f1 := by
  unfold nbStage1 at h
  rcases (exc_bind_ok_iff _ _ _).mp h with ⟨cs, hcs, h⟩
  rcases (exc_bind_ok_iff _ _ _).mp h with ⟨a0, h0, h⟩
  rcases (exc_bind_ok_iff _ _ _).mp h with ⟨a1, h1, h⟩
  cases h
  exact ⟨listIndex_ok h0, listIndex_ok h1⟩

/-- Success inversion for `_customSmogForce_nb`: the force is registered
under `'Nonbonded' + str(name)` with group `forceCount`, copying the
exclusions of the system's force 1 and the charges of its force 0. -/
theorem customSmogForce_nb_ok (st : SBMSt) (nm : Nat) (r : NbForceRec) (st' : SBMSt)
    (h : customSmogForce_nb st nm r = (st', none)) :
    ∃ (nb : CustomNonbondedForce) (ats : List String),
      st' = { st with
        atom_types := ats
        forcesDict := dictInsert st.forcesDict ("Nonbonded" ++ toString nm)
          ⟨.smogNB nb, st.forceCount⟩
        forceCount := st.forceCount + 1 } ∧
      (∃ ex g1, st.system.forces.get? 1 = some ⟨.engineCustomNB ex, g1⟩ ∧
        nb.exclusions = ex) ∧
      (∃ ch g0, st.system.forces.get? 0 = some ⟨.engineNonbonded ch, g0⟩ ∧
        st.system.numParticles ≤ ch.length ∧
        nb.particles.map Prod.fst = ch.take st.system.numParticles) := by
  unfold customSmogForce_nb at h
  cases h1 : nbStage1 st with
  | error e =>
      rw [h1] at h
      dsimp only at h
      simp [Prod.ext_iff] at h
  | ok g =>
      obtain ⟨glob, f0, f1⟩ := g
      rw [h1] at h
      dsimp only at h
      cases h2 : r.nbParams.mapM (fun a => getItem a "type1") with
      | error e =>
          rw [h2] at h
          dsimp only at h
          simp [Prod.ext_iff] at h
      | ok t1s =>
          rw [h2] at h
          dsimp only at h
          cases h3 : nbStage2 { st with atom_types := npUnique t1s } nm r glob f0 f1 with
          | error e =>
              rw [h3] at h
              dsimp only at h
              simp [Prod.ext_iff] at h
          | ok st2 =>
              rw [h3] at h
              dsimp only at h
              cases h
              obtain ⟨h0, h1'⟩ := nbStage1_ok st glob f0 f1 h1
              obtain ⟨nb, rfl, ⟨ex, hk1, hex⟩, ⟨ch, hk0, hle, hch⟩⟩ :=
                nbStage2_ok { st with atom_types := npUnique t1s } nm r glob f0 f1 st' h3
              refine ⟨nb, npUnique t1s, rfl, ⟨ex, f1.group, ?_, hex⟩,
                ⟨ch, f0.group, ?_, hle, hch⟩⟩
              · rw [h1']
                congr 1
                cases f1
                simp only at hk1
                rw [hk1]
              · rw [h0]
                congr 1
                cases f0
                simp only at hk0
                rw [hk0]

/-- Failure inversion for `_customSmogForce_nb`: a raise leaves the force
dict, the counter, and the system untouched. -/
theorem customSmogForce_nb_err (st : SBMSt) (nm : Nat) (r : NbForceRec) (st' : SBMSt)
    (e : PyError) (h : customSmogForce_nb st nm r = (st', some e)) :
    st'.forcesDict = st.forcesDict ∧ st'.forceCount = st.forceCount ∧
    st'.system = st.system := by
  unfold customSmogForce_nb at h
  cases h1 : nbStage1 st with
  | error e' =>
      rw [h1] at h
      dsimp only at h
      cases h
      exact ⟨rfl, rfl, rfl⟩
  | ok g =>
      obtain ⟨glob, f0, f1⟩ := g
      rw [h1] at h
      dsimp only at h
      cases h2 : r.nbParams.mapM (fun a => getItem a "type1") with
      | error e' =>
          rw [h2] at h
          dsimp only at h
          cases h
          exact ⟨rfl, rfl, rfl⟩
      | ok t1s =>
          rw [h2] at h
          dsimp only at h
          cases h3 : nbStage2 { st with atom_types := npUnique t1s } nm r glob f0 f1 with
          | error e' =>
              rw [h3] at h
              dsimp only at h
              cases h
              exact ⟨rfl, rfl, rfl⟩
          | ok st2 =>
              rw [h3] at h
              dsimp only at h
              simp [Prod.ext_iff] at h

theorem customSmogForce_reg (st : SBMSt) (nm : String) (r : ContactForceRec)
    (st' : SBMSt) (h : customSmogForce st nm r = .ok st')
    (hreg : RegOK st.forcesDict st.forceCount) :
    RegOK st'.forcesDict st'.forceCount := by
  obtain ⟨bs, cs, _, _, rfl⟩ := customSmogForce_ok st nm r st' h
  exact regOK_insert nm _ _ _ hreg rfl

theorem applyContactForces_reg (l : List (String × ContactForceRec)) :
    ∀ st, RegOK st.forcesDict st.forceCount →
      RegOK (applyContactForces st l).1.forcesDict
        (applyContactForces st l).1.forceCount := by
  induction l with
  | nil =>
      intro st h
      exact h
  | cons p rest ih =>
      obtain ⟨nm, r⟩ := p
      intro st h
      unfold applyContactForces
      cases hc : customSmogForce st nm r with
      | error e => exact h
      | ok st1 =>
          dsimp only
          have h1 := customSmogForce_reg st nm r st1 hc h
          cases hf : dictFind st1.forcesDict nm with
          | none => exact h1
          | some f => exact ih _ h1

theorem customSmogForce_nb_reg (st : SBMSt) (nm : Nat) (r : NbForceRec)
    (hreg : RegOK st.forcesDict st.forceCount) :
    RegOK (customSmogForce_nb st nm r).1.forcesDict
      (customSmogForce_nb st nm r).1.forceCount := by
  cases hres : customSmogForce_nb st nm r with
  | mk st' o =>
      cases o with
      | none =>
          obtain ⟨nb, ats, rfl, _, _⟩ := customSmogForce_nb_ok st nm r st' hres
          exact regOK_insert _ _ _ _ hreg rfl
      | some e =>
          obtain ⟨hd, hc, _⟩ := customSmogForce_nb_err st nm r st' e hres
          dsimp only
          rw [hd, hc]
          exact hreg

theorem applyNbForces_reg (l : List (Nat × NbForceRec)) :
    ∀ st, RegOK st.forcesDict st.forceCount →
      RegOK (applyNbForces st l).1.forcesDict (applyNbForces st l).1.forceCount := by
  induction l with
  | nil =>
      intro st h
      exact h
  | cons p rest ih =>
      obtain ⟨nm, r⟩ := p
      intro st h
      unfold applyNbForces
      have hstep := customSmogForce_nb_reg st nm r h
      cases hres : customSmogForce_nb st nm r with
      | mk st1 o =>
          rw [hres] at hstep
          cases o with
          | some e => exact hstep
          | none =>
              dsimp only
              cases hf : dictFind st1.forcesDict ("Nonbonded" ++ toString nm) with
              | none => exact hstep
              | some f => exact ih _ hstep

theorem nbPhase_regOK (xd : XmlData) (st1 : SBMSt)
    (h : RegOK st1.forcesDict st1.forceCount) :
    RegOK (loadXmlNbPhase xd st1).1.forcesDict (loadXmlNbPhase xd st1).1.forceCount := by
  unfold loadXmlNbPhase
  cases st1.nonbond_present with
  | none => exact h
  | some b =>
      cases b with
      | false => exact h
      | true =>
          dsimp only
          rw [if_pos rfl]
          cases xd.nonbond with
          | none => exact h
          | some nd =>
              dsimp only
              cases splitForces_nb nd with
              | error e => exact h
              | ok nb =>
                  dsimp only
                  have h3 := applyNbForces_reg nb
                    { st1 with nonbond_present := some true, nonbond := some nb } h
                  cases hanb : applyNbForces
                      { st1 with nonbond_present := some true, nonbond := some nb } nb with
                  | mk st3 o =>
                      rw [hanb] at h3
                      cases o with
                      | some e => exact h3
                      | none =>
                          dsimp only
                          cases removeForce0 st3.system with
                          | error e => exact h3
                          | ok sys1 =>
                              dsimp only
                              cases removeForce0 sys1 with
                              | error e => exact h3
                              | ok sys2 => exact h3

theorem contactsPhase_regOK (xd : XmlData) (st : SBMSt)
    (h : RegOK st.forcesDict st.forceCount) :
    RegOK (loadXmlContactsPhase xd st).1.forcesDict
      (loadXmlContactsPhase xd st).1.forceCount := by
  unfold loadXmlContactsPhase
  cases splitForces_contacts xd.contacts with
  | error e => exact h
  | ok contacts =>
      dsimp only
      have h2 := applyContactForces_reg contacts { st with contacts := some contacts } h
      cases hacf : applyContactForces { st with contacts := some contacts } contacts with
      | mk st1 o =>
          rw [hacf] at h2
          cases o with
          | some e => exact h2
          | none => exact nbPhase_regOK xd st1 h2

/-- `loadXml` preserves the registration invariant, on success and on
raise alike. -/
theorem loadXml_regOK (v : XElem → Bool) (root : XElem) (st : SBMSt)
    (h : RegOK st.forcesDict st.forceCount) :
    RegOK (loadXml v root st).1.forcesDict (loadXml v root st).1.forceCount := by
  unfold loadXml
  by_cases hfa : st.forceApplied
  · rw [if_pos hfa]
    exact h
  · rw [if_neg hfa]
    by_cases hv : v root = false
    · rw [if_pos hv]
      exact h
    · rw [if_neg hv]
      cases import_xml2OpenSMOG st.pbc st.constants_present st.nonbond_present root with
      | mk p r =>
          obtain ⟨cp, nbp⟩ := p
          cases r with
          | error e => exact h
          | ok xd =>
              dsimp only
              exact contactsPhase_regOK xd _ h

theorem loadTopFold_other (nforces : Nat) (h7 : nforces ≠ 7) (h8 : nforces ≠ 8) :
    ∀ (ps : List (Nat × Force)) (sa : SBMSt × List Force),
      (ps.foldl (loadTopStep nforces) sa).1 = sa.1 := by
  intro ps
  induction ps with
  | nil =>
      intro sa
      rfl
  | cons p t ih =>
      intro sa
      rw [List.foldl_cons]
      rw [ih]
      unfold loadTopStep
      rw [if_neg (by simp [h7]), if_neg (by simp [h8])]

/-- With any engine system that is not one of the recognized 7- or 8-force
layouts, `loadTop` registers nothing. -/
theorem loadTopRegister_other (st0 : SBMSt) (sys : PySystem)
    (h7 : sys.forces.length ≠ 7) (h8 : sys.forces.length ≠ 8) :
    (loadTopRegister st0 sys).forcesDict = st0.forcesDict ∧
    (loadTopRegister st0 sys).forceCount = st0.forceCount := by
  unfold loadTopRegister
  dsimp only
  rw [loadTopFold_other sys.forces.length h7 h8]
  exact ⟨rfl, rfl⟩

/-- C9: every force registered in `forcesDict` gets group `forceCount` at
the moment of registration and the counter is incremented right after:
(1) a successful `_customSmogForce` registers its force under `name` with
group equal to the entry counter and bumps the counter; (2) so does a
successful `_customSmogForce_nb` under `'Nonbonded' + str(name)`; (3) the
`loadTop` registration loop, run from the freshly initialised state, leaves
the dict groups equal to `range(forceCount)` for both the 7-force and the
8-force engine systems; (4) hence, starting from any state satisfying the
registration invariant, after `loadXml` all dict entries occupy pairwise
distinct force groups. -/
theorem claim_C9 :
    (∀ (st : SBMSt) (nm : String) (r : ContactForceRec) (st2 : SBMSt),
        customSmogForce st nm r = .ok st2 →
        ∃ f : Force, dictFind st2.forcesDict nm = some f ∧
          f.group = st.forceCount ∧ st2.forceCount = st.forceCount + 1) ∧
    (∀ (st : SBMSt) (nm : Nat) (r : NbForceRec) (st2 : SBMSt),
        customSmogForce_nb st nm r = (st2, none) →
        ∃ f : Force, dictFind st2.forcesDict ("Nonbonded" ++ toString nm) = some f ∧
          f.group = st.forceCount ∧ st2.forceCount = st.forceCount + 1) ∧
    (∀ (pbc : Bool) (rc : ℚ) (sys : PySystem),
        sys.forces.length = 7 ∨ sys.forces.length = 8 →
        (loadTopRegister (initSt pbc rc) sys).forcesDict.map (fun p => p.2.group) =
          List.range (loadTopRegister (initSt pbc rc) sys).forceCount) ∧
    (∀ (v : XElem → Bool) (root : XElem) (st : SBMSt),
        RegOK st.forcesDict st.forceCount →
        GroupsDistinct (loadXml v root st).1.forcesDict) := by
  refine ⟨?_, ?_, ?_, ?_⟩
  · intro st nm r st2 h
    obtain ⟨bs, cs, _, _, rfl⟩ := customSmogForce_ok st nm r st2 h
    exact ⟨_, dictFind_insert_self st.forcesDict nm _, rfl, rfl⟩
  · intro st nm r st2 h
    obtain ⟨nb, ats, rfl, _, _⟩ := customSmogForce_nb_ok st nm r st2 h
    exact ⟨_, dictFind_insert_self st.forcesDict ("Nonbonded" ++ toString nm) _, rfl, rfl⟩
  · intro pbc rc sys hlen
    obtain ⟨np, fs⟩ := sys
    cases hlen with
    | inl hl =>
        rcases fs with _ | ⟨a, fs⟩
        · simp only [List.length_cons, List.length_nil] at hl
          omega
        rcases fs with _ | ⟨b, fs⟩
        · simp only [List.length_cons, List.length_nil] at hl
          omega
        rcases fs with _ | ⟨c, fs⟩
        · simp only [List.length_cons, List.length_nil] at hl
          omega
        rcases fs with _ | ⟨d, fs⟩
        · simp only [List.length_cons, List.length_nil] at hl
          omega
        rcases fs with _ | ⟨e, fs⟩
        · simp only [List.length_cons, List.length_nil] at hl
          omega
        rcases fs with _ | ⟨f, fs⟩
        · simp only [List.length_cons, List.length_nil] at hl
          omega
        rcases fs with _ | ⟨g, fs⟩
        · simp only [List.length_cons, List.length_nil] at hl
          omega
        rcases fs with _ | ⟨y, fs⟩
        · rfl
        · simp only [List.length_cons, List.length_nil] at hl
          omega
    | inr hl =>
        rcases fs with _ | ⟨a, fs⟩
        · simp only [List.length_cons, List.length_nil] at hl
          omega
        rcases fs with _ | ⟨b, fs⟩
        · simp only [List.length_cons, List.length_nil] at hl
          omega
        rcases fs with _ | ⟨c, fs⟩
        · simp only [List.length_cons, List.length_nil] at hl
          omega
        rcases fs with _ | ⟨d, fs⟩
        · simp only [List.length_cons, List.length_nil] at hl
          omega
        rcases fs with _ | ⟨e, fs⟩
        · simp only [List.length_cons, List.length_nil] at hl
          omega
        rcases fs with _ | ⟨f, fs⟩
        · simp only [List.length_cons, List.length_nil] at hl
          omega
        rcases fs with _ | ⟨g, fs⟩
        · simp only [List.length_cons, List.length_nil] at hl
          omega
        rcases fs with _ | ⟨h, fs⟩
        · simp only [List.length_cons, List.length_nil] at hl
          omega
        rcases fs with _ | ⟨y, fs⟩
        · rfl
        · simp only [List.length_cons, List.length_nil] at hl
          omega
  · intro v root st hreg
    exact (loadXml_regOK v root st hreg).1

/-- Witness for C9 at concrete inputs: the contact force of `c1st`/`c1res`,
the nonbonded force built on `c2st`/`c2rec`, the 7-force engine system, and
the full `loadXml` pipeline on `c10root`. -/
theorem claim_C9_witness :
    (∃ f : Force, dictFind c1res.forcesDict "c1" = some f ∧
      f.group = c1st.forceCount ∧ c1res.forceCount = c1st.forceCount + 1) ∧
    (∃ f : Force,
      dictFind (customSmogForce_nb c2st 0 c2rec).1.forcesDict
        ("Nonbonded" ++ toString 0) = some f ∧
      f.group = c2st.forceCount ∧
      (customSmogForce_nb c2st 0 c2rec).1.forceCount = c2st.forceCount + 1) ∧
    ((loadTopRegister (initSt true 3) sys7).forcesDict.map (fun p => p.2.group) =
      List.range (loadTopRegister (initSt true 3) sys7).forceCount) ∧
    GroupsDistinct (loadXml schemaBasicOK c10root c10st).1.forcesDict :=
  ⟨claim_C9.1 c1st "c1" ⟨"eps*r", ["eps"], [[("i", "1"), ("j", "2"), ("eps", "2")]]⟩
      c1res (by decide),
   claim_C9.2.1 c2st 0 c2rec (customSmogForce_nb c2st 0 c2rec).1 (by decide),
   claim_C9.2.2.1 true 3 sys7 (Or.inl rfl),
   claim_C9.2.2.2 schemaBasicOK c10root c10st
     ⟨List.Pairwise.nil, fun p hp => absurd hp (List.not_mem_nil p)⟩⟩

theorem listGet?_append_left {l l2 : List α} {n : Nat} {a : α}
    (h : l.get? n = some a) : (l ++ l2).get? n = some a := by
  rw [List.get?_eq_getElem?] at h ⊢
  obtain ⟨hlt, _⟩ := List.getElem?_eq_some.mp h
  rw [List.getElem?_append_left hlt]
  exact h

/-- Success inversion for the contacts loop of `loadXml`: the new forces are
appended behind the existing ones, they are all OpenSMOG custom bond forces,
and the particle count and the `nonbond_present` attribute are untouched. -/
theorem applyContactForces_ok (l : List (String × ContactForceRec)) :
    ∀ st st2, applyContactForces st l = (st2, none) →
      ∃ added, st2.system.forces = st.system.forces ++ added ∧
        (∀ f ∈ added, ∃ cb, f.kind = .smogBond cb) ∧
        st2.system.numParticles = st.system.numParticles ∧
        st2.nonbond_present = st.nonbond_present := by
  induction l with
  | nil =>
      intro st st2 h
      unfold applyContactForces at h
      cases h
      exact ⟨[], by simp, by simp, rfl, rfl⟩
  | cons p rest ih =>
      obtain ⟨nm, r⟩ := p
      intro st st2 h
      unfold applyContactForces at h
      cases hc : customSmogForce st nm r with
      | error e =>
          rw [hc] at h
          simp [Prod.ext_iff] at h
      | ok st1 =>
          rw [hc] at h
          dsimp only at h
          obtain ⟨bs, cs, hbs, hcs, hst1⟩ := customSmogForce_ok st nm r st1 hc
          subst hst1
          rw [dictFind_insert_self] at h
          obtain ⟨added, ha, hkind, hnp, hnbp⟩ := ih _ _ h
          refine ⟨⟨.smogBond ⟨r.expression, r.parameters, bs, cs⟩, st.forceCount⟩ :: added,
            ?_, ?_, hnp, hnbp⟩
          · have ha2 : st2.system.forces =
                (st.system.forces ++ [⟨.smogBond ⟨r.expression, r.parameters, bs, cs⟩,
                  st.forceCount⟩]) ++ added := ha
            rw [ha2, List.append_assoc]
            rfl
          · intro f hf
            cases hf with
            | head => exact ⟨_, rfl⟩
            | tail _ hf => exact hkind f hf

/-- Success inversion for the nonbond loop of `loadXml`: when the system's
first two forces are the engine nonbonded force (charges `ch`) and the
engine custom nonbonded force (exclusions `ex`), the loop appends only
OpenSMOG custom nonbonded forces, each copying the exclusions `ex` and the
first `np` charges of `ch`. -/
theorem applyNbForces_ok (ch : List ℚ) (ex : List (Nat × Nat)) (np g0 g1 : Nat)
    (l : List (Nat × NbForceRec)) :
    ∀ st st2, st.system.forces.get? 0 = some ⟨.engineNonbonded ch, g0⟩ →
      st.system.forces.get? 1 = some ⟨.engineCustomNB ex, g1⟩ →
      st.system.numParticles = np →
      applyNbForces st l = (st2, none) →
      ∃ added, st2.system.forces = st.system.forces ++ added ∧
        ∀ f ∈ added, ∃ nb, f.kind = .smogNB nb ∧ nb.exclusions = ex ∧
          nb.particles.map Prod.fst = ch.take np := by
  induction l with
  | nil =>
      intro st st2 _ _ _ h
      unfold applyNbForces at h
      cases h
      exact ⟨[], by simp, by simp⟩
  | cons p rest ih =>
      obtain ⟨nm, r⟩ := p
      intro st st2 h0 h1 hnp h
      unfold applyNbForces at h
      cases hc : customSmogForce_nb st nm r with
      | mk st1 o =>
          rw [hc] at h
          cases o with
          | some e =>
              dsimp only at h
              simp [Prod.ext_iff] at h
          | none =>
              dsimp only at h
              obtain ⟨nb, ats, hst1, ⟨ex2, g12, hget1, hex⟩, ⟨ch2, g02, hget0, hle, hch⟩⟩ :=
                customSmogForce_nb_ok st nm r st1 hc
              have hq1 := h1.symm.trans hget1
              injection hq1 with hq1
              injection hq1 with hk1 hg1
              injection hk1 with hk1
              subst hk1
              have hq0 := h0.symm.trans hget0
              injection hq0 with hq0
              injection hq0 with hk0 hg0
              injection hk0 with hk0
              subst hk0
              subst hst1
              rw [dictFind_insert_self] at h
              dsimp only at h
              have hfx : ∀ l2 : List Force,
                  (st.system.forces ++ l2).get? 0 = some ⟨.engineNonbonded ch, g0⟩ ∧
                  (st.system.forces ++ l2).get? 1 = some ⟨.engineCustomNB ex, g1⟩ :=
                fun l2 => ⟨listGet?_append_left h0, listGet?_append_left h1⟩
              obtain ⟨added, ha, hprops⟩ := ih
                { st with
                    forceCount := st.forceCount + 1
                    forcesDict := dictInsert st.forcesDict ("Nonbonded" ++ toString nm)
                      ⟨.smogNB nb, st.forceCount⟩
                    system := addForce st.system ⟨.smogNB nb, st.forceCount⟩
                    atom_types := ats }
                st2 ((hfx _).1) ((hfx _).2) hnp h
              refine ⟨⟨.smogNB nb, st.forceCount⟩ :: added, ?_, ?_⟩
              · have ha2 : st2.system.forces =
                    (st.system.forces ++ [⟨.smogNB nb, st.forceCount⟩]) ++ added := ha
                rw [ha2, List.append_assoc]
                rfl
              · intro f hf
                cases hf with
                | head =>
                    refine ⟨nb, rfl, hex, ?_⟩
                    rw [hch, hnp]
                | tail _ hf => exact hprops f hf

/-- Success inversion for `import_xml2OpenSMOG` when the document has a
nonbond element: the parsed data holds a nonbond part and the returned
`nonbond_present` value is `some true`. -/
theorem import_nonbond_present (pbc : Bool) (cp nbp : Option Bool) (root : XElem)
    (xd : XmlData) (cp2 nbp2 : Option Bool)
    (h : import_xml2OpenSMOG pbc cp nbp root = ((cp2, nbp2), .ok xd))
    (hnb : (root.findTag "nonbond").isSome = true) :
    (∃ nd, xd.nonbond = some nd) ∧ nbp2 = some true := by
  unfold import_xml2OpenSMOG at h
  cases hv : root.findTag "OpenSMOGminVersion" with
  | none =>
      rw [hv] at h
      dsimp only at h
      simp [Prod.ext_iff] at h
  | some ve =>
      rw [hv] at h
      dsimp only at h
      cases hce : root.findTag "constants" with
      | none =>
          rw [hce] at h
          dsimp only at h
          cases hct : root.findTag "contacts" with
          | none =>
              rw [hct] at h
              dsimp only at h
              simp [Prod.ext_iff] at h
          | some cEl =>
              rw [hct] at h
              dsimp only at h
              cases hcd : contactsFold cEl.children with
              | error e1 =>
                  rw [hcd] at h
                  dsimp only at h
                  simp [Prod.ext_iff] at h
              | ok cd =>
                  rw [hcd] at h
                  dsimp only at h
                  obtain ⟨ne, hne⟩ := Option.isSome_iff_exists.mp hnb
                  rw [hne] at h
                  dsimp only at h
                  by_cases hp : pbc = false
                  · rw [hp, if_pos rfl] at h
                    simp [Prod.ext_iff] at h
                  · rw [if_neg hp] at h
                    cases hnf : nonbondFold ne.children with
                    | error e2 =>
                        rw [hnf] at h
                        dsimp only at h
                        simp [Prod.ext_iff] at h
                    | ok nd =>
                        rw [hnf] at h
                        dsimp only at h
                        injection h with h1 h2
                        injection h1 with hcp hnbp
                        have hxd := Except.ok.inj h2
                        exact ⟨⟨nd, by rw [← hxd]⟩, hnbp.symm⟩
      | some ce =>
          rw [hce] at h
          dsimp only at h
          cases hcf : constantsDict ce with
          | error e0 =>
              rw [hcf] at h
              dsimp only at h
              simp [Prod.ext_iff] at h
          | ok cs =>
              rw [hcf] at h
              dsimp only at h
              cases hct : root.findTag "contacts" with
              | none =>
                  rw [hct] at h
                  dsimp only at h
                  simp [Prod.ext_iff] at h
              | some cEl =>
                  rw [hct] at h
                  dsimp only at h
                  cases hcd : contactsFold cEl.children with
                  | error e1 =>
                      rw [hcd] at h
                      dsimp only at h
                      simp [Prod.ext_iff] at h
                  | ok cd =>
                      rw [hcd] at h
                      dsimp only at h
                      obtain ⟨ne, hne⟩ := Option.isSome_iff_exists.mp hnb
                      rw [hne] at h
                      dsimp only at h
                      by_cases hp : pbc = false
                      · rw [hp, if_pos rfl] at h
                        simp [Prod.ext_iff] at h
                      · rw [if_neg hp] at h
                        cases hnf : nonbondFold ne.children with
                        | error e2 =>
                            rw [hnf] at h
                            dsimp only at h
                            simp [Prod.ext_iff] at h
                        | ok nd =>
                            rw [hnf] at h
                            dsimp only at h
                            injection h with h1 h2
                            injection h1 with hcp hnbp
                            have hxd := Except.ok.inj h2
                            exact ⟨⟨nd, by rw [← hxd]⟩, hnbp.symm⟩

theorem removeForce0_ok (s s2 : PySystem) (h : removeForce0 s = .ok s2) :
    ∃ f, s.forces = f :: s2.forces ∧ s2.numParticles = s.numParticles := by
  unfold removeForce0 at h
  cases hf : s.forces with
  | nil =>
      rw [hf] at h
      exact Except.noConfusion h
  | cons f t =>
      rw [hf] at h
      dsimp only at h
      have h2 := Except.ok.inj h
      subst h2
      exact ⟨f, rfl, rfl⟩

/-- Success inversion for the contacts phase of `loadXml`. -/
theorem contactsPhase_ok (xd : XmlData) (stA st2 : SBMSt)
    (h : loadXmlContactsPhase xd stA = (st2, none)) :
    ∃ contacts st1, splitForces_contacts xd.contacts = .ok contacts ∧
      applyContactForces { stA with contacts := some contacts } contacts = (st1, none) ∧
      loadXmlNbPhase xd st1 = (st2, none) := by
  unfold loadXmlContactsPhase at h
  cases hsc : splitForces_contacts xd.contacts with
  | error e =>
      rw [hsc] at h
      dsimp only at h
      simp [Prod.ext_iff] at h
  | ok contacts =>
      rw [hsc] at h
      dsimp only at h
      cases hacf : applyContactForces { stA with contacts := some contacts } contacts with
      | mk st1 o =>
          rw [hacf] at h
          cases o with
          | some e =>
              dsimp only at h
              simp [Prod.ext_iff] at h
          | none =>
              dsimp only at h
              exact ⟨contacts, st1, rfl, hacf, h⟩

/-- Success inversion for the nonbond phase of `loadXml`: the nonbond loop
ran and the final two `removeForce(0)` calls dropped the first two forces of
the resulting system. -/
theorem nbPhase_ok (xd : XmlData) (nd : NbData) (st1 st2 : SBMSt)
    (hpres : st1.nonbond_present = some true)
    (hnd : xd.nonbond = some nd)
    (h : loadXmlNbPhase xd st1 = (st2, none)) :
    ∃ nbl st3, splitForces_nb nd = .ok nbl ∧
      applyNbForces { st1 with nonbond_present := some true, nonbond := some nbl } nbl =
        (st3, none) ∧
      st2.system.forces = st3.system.forces.drop 2 := by
  unfold loadXmlNbPhase at h
  rw [hpres] at h
  dsimp only at h
  rw [if_pos rfl] at h
  rw [hnd] at h
  dsimp only at h
  cases hsn : splitForces_nb nd with
  | error e =>
      rw [hsn] at h
      dsimp only at h
      simp [Prod.ext_iff] at h
  | ok nbl =>
      rw [hsn] at h
      dsimp only at h
      cases hanb : applyNbForces
          { st1 with nonbond_present := some true, nonbond := some nbl } nbl with
      | mk st3 o =>
          rw [hanb] at h
          cases o with
          | some e =>
              dsimp only at h
              simp [Prod.ext_iff] at h
          | none =>
              dsimp only at h
              cases hr1 : removeForce0 st3.system with
              | error e =>
                  rw [hr1] at h
                  dsimp only at h
                  simp [Prod.ext_iff] at h
              | ok sys1 =>
                  rw [hr1] at h
                  dsimp only at h
                  cases hr2 : removeForce0 sys1 with
                  | error e =>
                      rw [hr2] at h
                      dsimp only at h
                      simp [Prod.ext_iff] at h
                  | ok sys2 =>
                      rw [hr2] at h
                      dsimp only at h
                      injection h with h1 h2
                      subst h1
                      refine ⟨nbl, st3, rfl, hanb, ?_⟩
                      obtain ⟨a, hA, _⟩ := removeForce0_ok st3.system sys1 hr1
                      obtain ⟨b, hB, _⟩ := removeForce0_ok sys1 sys2 hr2
                      show sys2.forces = st3.system.forces.drop 2
                      rw [hA, hB]
                      rfl

/-- C10: for a successful `loadXml` run on a document holding a nonbond
section, starting from a system whose first two forces are the
engine-generated nonbonded force (per-particle charges `ch`) and custom
nonbonded force (exclusion pairs `ex`), the final system consists of the
remaining original forces followed by the added OpenSMOG forces; every added
custom nonbonded force copies the exclusions `ex` of the second engine force
and the per-particle charges of the first (one per particle of the system),
and the two engine forces themselves are removed. -/
theorem claim_C10 (v : XElem → Bool) (root : XElem) (st st2 : SBMSt)
    (ch : List ℚ) (ex : List (Nat × Nat)) (g0 g1 : Nat) (rest : List Force)
    (hfa : st.forceApplied = false)
    (hforces : st.system.forces =
      ⟨.engineNonbonded ch, g0⟩ :: ⟨.engineCustomNB ex, g1⟩ :: rest)
    (hnb : (root.findTag "nonbond").isSome = true)
    (h : loadXml v root st = (st2, none)) :
    ∃ added : List Force,
      st2.system.forces = rest ++ added ∧
      ∀ f ∈ added,
        (∃ cb, f.kind = .smogBond cb) ∨
        (∃ nb, f.kind = .smogNB nb ∧ nb.exclusions = ex ∧
          nb.particles.map Prod.fst = ch.take st.system.numParticles) := by
  unfold loadXml at h
  rw [hfa] at h
  rw [if_neg Bool.false_ne_true] at h
  by_cases hv : v root = false
  · rw [if_pos hv] at h
    simp [Prod.ext_iff] at h
  · rw [if_neg hv] at h
    cases himp : import_xml2OpenSMOG st.pbc st.constants_present st.nonbond_present root with
    | mk p r =>
        obtain ⟨cp, nbp⟩ := p
        cases r with
        | error e =>
            rw [himp] at h
            dsimp only at h
            simp [Prod.ext_iff] at h
        | ok xd =>
            rw [himp] at h
            dsimp only at h
            obtain ⟨⟨nd, hxd⟩, hnbp⟩ := import_nonbond_present st.pbc st.constants_present
              st.nonbond_present root xd cp nbp himp hnb
            subst hnbp
            obtain ⟨contacts, st1, hsc, hacf, hnbph⟩ := contactsPhase_ok xd _ st2 h
            obtain ⟨addedC, hCf, hCk, hCnp, hCnbp⟩ := applyContactForces_ok contacts _ st1 hacf
            have hCf2 : st1.system.forces = st.system.forces ++ addedC := hCf
            have hCnp2 : st1.system.numParticles = st.system.numParticles := hCnp
            have hCnbp2 : st1.nonbond_present = some true := hCnbp
            obtain ⟨nbl, st3, hsn, hanb, hdrop⟩ := nbPhase_ok xd nd st1 st2 hCnbp2 hxd hnbph
            have h0x : st1.system.forces.get? 0 =
                some (⟨.engineNonbonded ch, g0⟩ : Force) := by
              rw [hCf2, hforces]
              rfl
            have h1x : st1.system.forces.get? 1 =
                some (⟨.engineCustomNB ex, g1⟩ : Force) := by
              rw [hCf2, hforces]
              rfl
            obtain ⟨addedN, hNf, hNprops⟩ := applyNbForces_ok ch ex st.system.numParticles g0 g1
              nbl { st1 with nonbond_present := some true, nonbond := some nbl } st3
              h0x h1x hCnp2 hanb
            have hNf2 : st3.system.forces = st1.system.forces ++ addedN := hNf
            have hfinal : st2.system.forces = rest ++ (addedC ++ addedN) := by
              rw [hdrop, hNf2, hCf2, hforces]
              exact List.append_assoc rest addedC addedN
            refine ⟨addedC ++ addedN, hfinal, ?_⟩
            intro f hf
            rcases List.mem_append.mp hf with hc | hn
            · exact Or.inl (hCk f hc)
            · exact Or.inr (hNprops f hn)

/-- Witness for C10: the full pipeline on `c10root` from `c10st`, whose
system holds exactly the two engine forces. -/
theorem claim_C10_witness :
    ∃ added : List Force,
      (loadXml schemaBasicOK c10root c10st).1.system.forces = [] ++ added ∧
      ∀ f ∈ added,
        (∃ cb, f.kind = .smogBond cb) ∨
        (∃ nb, f.kind = .smogNB nb ∧ nb.exclusions = [(0, 1)] ∧
          nb.particles.map Prod.fst =
            ([1, -1] : List ℚ).take c10st.system.numParticles) :=
  claim_C10 schemaBasicOK c10root c10st (loadXml schemaBasicOK c10root c10st).1
    [1, -1] [(0, 1)] 0 0 [] rfl rfl (by decide) rfl

end OpenSMOG
